import Mathlib

/-!
Shallow embedding of the `coordinator-contract` NEAR smart contract
(`src/coordinator-contract/src/lib.rs`).  Machine integers are modelled as
`Nat` with explicit reduction modulo `2^32` where the source performs 32-bit
arithmetic (inside SHA-256).  Persistent `IterableMap`/`IterableSet`
collections are modelled as association lists / lists with lookup, insert
and remove helpers.  Fallible entry points (which `require!`/`expect` panic
in the source, rolling back the whole call under NEAR semantics) are
modelled as `Except String` valued functions; a failed call produces no
state, and the world-level `apply*` wrappers keep the pre-state on error,
mirroring NEAR's atomic rollback of panicked calls.
-/

namespace Coord

/-! ### SHA-256 (the `hash` helper of lib.rs, via the `sha2` crate)

Modelled from the spec: the source's `hash` function delegates to the
external `sha2` crate (SHA-256) and hex-encodes the digest ("a fixed
one-way digest (64 hex characters, 256-bit digest) over the UTF-8 bytes of
the opaque input").  We embed the full FIPS 180-4 SHA-256 algorithm over
`Nat` so that `hash` is the real function. -/

def M32 : Nat := 4294967296

def rotr (n x : Nat) : Nat := ((x >>> n) ||| (x <<< (32 - n))) % M32

def xor3 (a b c : Nat) : Nat := (a ^^^ b) ^^^ c

def bigS0 (x : Nat) : Nat := xor3 (rotr 2 x) (rotr 13 x) (rotr 22 x)

def bigS1 (x : Nat) : Nat := xor3 (rotr 6 x) (rotr 11 x) (rotr 25 x)

def smallS0 (x : Nat) : Nat := xor3 (rotr 7 x) (rotr 18 x) (x >>> 3)

def smallS1 (x : Nat) : Nat := xor3 (rotr 17 x) (rotr 19 x) (x >>> 10)

def chF (x y z : Nat) : Nat := (x &&& y) ^^^ ((x ^^^ (M32 - 1)) &&& z)

def majF (x y z : Nat) : Nat := ((x &&& y) ^^^ (x &&& z)) ^^^ (y &&& z)

/-- The 64 SHA-256 round constants, packed big-endian into one integer
(word `i` is bits `32*(63-i) ..`). -/
def kPacked : Nat := 0x428a2f9871374491b5c0fbcfe9b5dba53956c25b59f111f1923f82a4ab1c5ed5d807aa9812835b01243185be550c7dc372be5d7480deb1fe9bdc06a7c19bf174e49b69c1efbe47860fc19dc6240ca1cc2de92c6f4a7484aa5cb0a9dc76f988da983e5152a831c66db00327c8bf597fc7c6e00bf3d5a7914706ca63511429296727b70a852e1b21384d2c6dfc53380d13650a7354766a0abb81c2c92e92722c85a2bfe8a1a81a664bc24b8b70c76c51a3d192e819d6990624f40e3585106aa07019a4c1161e376c082748774c34b0bcb5391c0cb34ed8aa4a5b9cca4f682e6ff3748f82ee78a5636f84c878148cc7020890befffaa4506cebbef9a3f7c67178f2

def K256 : List Nat := (List.range 64).map (fun i => (kPacked >>> (32 * (63 - i))) % 4294967296)

/-- The eight SHA-256 initial hash values, packed big-endian. -/
def hPacked : Nat := 0x6a09e667bb67ae853c6ef372a54ff53a510e527f9b05688c1f83d9ab5be0cd19

def H256 : List Nat := (List.range 8).map (fun i => (hPacked >>> (32 * (7 - i))) % 4294967296)

def beBytes (n v : Nat) : List Nat :=
  (List.range n).map (fun i => (v >>> (8 * (n - 1 - i))) % 256)

def padBytes (msg : List Nat) : List Nat :=
  msg ++ [128] ++ List.replicate ((119 - msg.length % 64) % 64) 0 ++ beBytes 8 (8 * msg.length)

def toWords : List Nat → List Nat
  | b0 :: b1 :: b2 :: b3 :: rest => (((b0 * 256 + b1) * 256 + b2) * 256 + b3) :: toWords rest
  | _ => []

def toBlocks : List Nat → List (List Nat)
  | w0 :: w1 :: w2 :: w3 :: w4 :: w5 :: w6 :: w7 ::
    w8 :: w9 :: w10 :: w11 :: w12 :: w13 :: w14 :: w15 :: rest =>
      [w0, w1, w2, w3, w4, w5, w6, w7, w8, w9, w10, w11, w12, w13, w14, w15] :: toBlocks rest
  | _ => []

def scheduleFrom (w : List Nat) : Nat → List Nat
  | 0 => w
  | f + 1 =>
    let i := w.length
    scheduleFrom
      (w ++ [(smallS1 (w.getD (i - 2) 0) + w.getD (i - 7) 0 +
              smallS0 (w.getD (i - 15) 0) + w.getD (i - 16) 0) % M32]) f

def schedule (block : List Nat) : List Nat := scheduleFrom block 48

def compressBlock (hv block : List Nat) : List Nat :=
  let step := fun (st : Nat × Nat × Nat × Nat × Nat × Nat × Nat × Nat) (kw : Nat × Nat) =>
    match st with
    | (a, b, c, d, e, f, g, hh) =>
      let t1 := (hh + bigS1 e + chF e f g + kw.1 + kw.2) % M32
      let t2 := (bigS0 a + majF a b c) % M32
      ((t1 + t2) % M32, a, b, c, (d + t1) % M32, e, f, g)
  match hv with
  | [h0, h1, h2, h3, h4, h5, h6, h7] =>
    match (K256.zip (schedule block)).foldl step (h0, h1, h2, h3, h4, h5, h6, h7) with
    | (a, b, c, d, e, f, g, hh) =>
      [(h0 + a) % M32, (h1 + b) % M32, (h2 + c) % M32, (h3 + d) % M32,
       (h4 + e) % M32, (h5 + f) % M32, (h6 + g) % M32, (h7 + hh) % M32]
  | _ => hv

def sha256Words (msg : List Nat) : List Nat :=
  (toBlocks (toWords (padBytes msg))).foldl compressBlock H256

def hexDigit (n : Nat) : Char :=
  if n < 10 then Char.ofNat (48 + n) else Char.ofNat (87 + n)

def hexWord (v : Nat) : List Char :=
  (List.range 8).map (fun i => hexDigit ((v >>> (4 * (7 - i))) % 16))

def sha256Hex (msg : List Nat) : String :=
  String.mk ((sha256Words msg).map hexWord).flatten

def utf8Char (n : Nat) : List Nat :=
  if n < 128 then [n]
  else if n < 2048 then [192 + n / 64, 128 + n % 64]
  else if n < 65536 then [224 + n / 4096, 128 + (n / 64) % 64, 128 + n % 64]
  else [240 + n / 262144, 128 + (n / 4096) % 64, 128 + (n / 64) % 64, 128 + n % 64]

def strBytes (s : String) : List Nat :=
  (s.data.map (fun c => utf8Char c.toNat)).flatten

/-- `hash` of lib.rs: hex-encoded SHA-256 of the UTF-8 bytes of the input. -/
def hash (data : String) : String := sha256Hex (strBytes data)

/-! ### Association-list maps (embedding of `near_sdk::store::IterableMap`)

`mapInsert` replaces the first binding of the key in place (or appends), and
`mapRemove` drops every binding of the key, matching map semantics where at
most one binding per key ever exists. -/

def mapLookup {κ α : Type} [DecidableEq κ] : List (κ × α) → κ → Option α
  | [], _ => none
  | (k, v) :: rest, key => if k = key then some v else mapLookup rest key

def mapInsert {κ α : Type} [DecidableEq κ] : List (κ × α) → κ → α → List (κ × α)
  | [], key, v => [(key, v)]
  | (k, w) :: rest, key, v =>
    if k = key then (key, v) :: rest else (k, w) :: mapInsert rest key v

def mapRemove {κ α : Type} [DecidableEq κ] (m : List (κ × α)) (key : κ) : List (κ × α) :=
  m.filter (fun e => e.1 ≠ key)

/-! ### Data model (lib.rs structs) -/

/-- `ProposalState` of lib.rs. -/
inductive ProposalState : Type
  | Created
  | WorkersCompleted
  | Finalized
  | TimedOut
deriving DecidableEq, Repr

/-- `Manifesto` of lib.rs. -/
structure Manifesto : Type where
  text : String
  mhash : String
deriving DecidableEq, Repr

/-- `Worker` of lib.rs (a coordinator's TEE attestation binding). -/
structure Worker : Type where
  checksum : String
  codehash : String
deriving DecidableEq, Repr

/-- `RegisteredWorker` of lib.rs. -/
structure RegisteredWorker : Type where
  worker_id : String
  account_id : Option String
  registered_at : Nat
  registered_by : String
  active : Bool
deriving DecidableEq, Repr

/-- `WorkerSubmissionInput` of lib.rs. -/
structure WorkerSubmissionInput : Type where
  worker_id : String
  result_hash : String
deriving DecidableEq, Repr

/-- `WorkerSubmission` of lib.rs. -/
structure WorkerSubmission : Type where
  worker_id : String
  result_hash : String
  timestamp : Nat
deriving DecidableEq, Repr

/-- `Proposal` of lib.rs.  `CryptoHash` yield ids are modelled as `Nat`
handles issued by the host (see `World`). -/
structure Proposal : Type where
  yield_id : Nat
  task_config : String
  config_hash : String
  timestamp : Nat
  requester : String
  state : ProposalState
  worker_submissions : List WorkerSubmission
  finalized_result : Option String
deriving DecidableEq, Repr

/-- `CoordinatorContract` state of lib.rs.  `AccountId` is modelled as
`String`. -/
structure CoordinatorContract : Type where
  owner : String
  approved_codehashes : List String
  coordinator_by_account_id : List (String × Worker)
  current_proposal_id : Nat
  proposals : List (Nat × Proposal)
  manifesto : Option Manifesto
  registered_workers : List (String × RegisteredWorker)
deriving DecidableEq, Repr

/-- `CoordinatorContract::new`. -/
def newContract (owner : String) : CoordinatorContract :=
  { owner := owner
    approved_codehashes := []
    coordinator_by_account_id := []
    current_proposal_id := 0
    proposals := []
    manifesto := none
    registered_workers := [] }

/-! ### Internal gates -/

/-- `require_owner` of lib.rs: the caller (predecessor account) must equal
the stored owner. -/
def require_owner (c : CoordinatorContract) (caller : String) : Except String Unit :=
  if caller = c.owner then Except.ok ()
  else Except.error "Only owner can call this function"

/-- `require_approved_codehash` of lib.rs: the caller must have a binding in
`coordinator_by_account_id`, and that binding's codehash must currently be
in `approved_codehashes`. -/
def require_approved_codehash (c : CoordinatorContract) (caller : String) :
    Except String Unit :=
  match mapLookup c.coordinator_by_account_id caller with
  | none => Except.error "Only registered coordinator can call this function"
  | some w =>
    if c.approved_codehashes.contains w.codehash then Except.ok ()
    else Except.error "Coordinator codehash is no longer approved"

/-! ### Contract entry points -/

/-- `set_manifesto` of lib.rs. -/
def set_manifesto (c : CoordinatorContract) (caller manifesto_text : String) :
    Except String CoordinatorContract :=
  match require_owner c caller with
  | Except.error e => Except.error e
  | Except.ok _ =>
  if manifesto_text.length ≤ 10000 then
    Except.ok { c with manifesto := some ⟨manifesto_text, hash manifesto_text⟩ }
  else Except.error "Manifesto text needs to be under 10,000 characters"

/-- `start_coordination` of lib.rs.  The host-assigned yield id
(`env::promise_yield_create` + `read_register` in the source) is passed in
by the caller of the model; the world-level wrapper supplies a fresh one.
Returns the new contract state and the allocated proposal id. -/
def start_coordination (c : CoordinatorContract) (caller task_config : String)
    (now yield_id : Nat) : Except String (CoordinatorContract × Nat) :=
  if c.manifesto.isSome then
    if task_config.length ≤ 10000 then
      let proposal_id := c.current_proposal_id + 1
      let p : Proposal :=
        { yield_id := yield_id
          task_config := task_config
          config_hash := hash task_config
          timestamp := now
          requester := caller
          state := ProposalState.Created
          worker_submissions := []
          finalized_result := none }
      let ps := mapInsert c.proposals proposal_id p
      Except.ok
        ({ c with current_proposal_id := proposal_id, proposals := ps }, proposal_id)
    else Except.error "Task config needs to be under 10,000 characters"
  else Except.error "Manifesto not set"

/-- The "registered and active" check of `record_worker_submissions`
(`.get(..).map(|w| w.active).unwrap_or(false)` in the source). -/
def workerActive (regs : List (String × RegisteredWorker)) (wid : String) : Bool :=
  match mapLookup regs wid with
  | some w => w.active
  | none => false

/-- The submission loop of `record_worker_submissions`: each input is
validated against the worker registry (`active`) and against the
accumulated submission list (nullifier check, which includes entries pushed
earlier in the same batch), then appended. -/
def recordLoop (regs : List (String × RegisteredWorker)) (now : Nat) :
    List WorkerSubmission → List WorkerSubmissionInput →
    Except String (List WorkerSubmission)
  | acc, [] => Except.ok acc
  | acc, sub :: rest =>
    if workerActive regs sub.worker_id then
      if acc.any (fun s => s.worker_id = sub.worker_id) then
        Except.error "Worker already submitted for this proposal"
      else
        recordLoop regs now (acc ++ [⟨sub.worker_id, sub.result_hash, now⟩]) rest
    else Except.error "Worker is not registered or not active"

/-- `record_worker_submissions` of lib.rs. -/
def record_worker_submissions (c : CoordinatorContract) (caller : String)
    (now proposal_id : Nat) (submissions : List WorkerSubmissionInput) :
    Except String CoordinatorContract :=
  match require_approved_codehash c caller with
  | Except.error e => Except.error e
  | Except.ok _ =>
  match mapLookup c.proposals proposal_id with
  | none => Except.error "No proposal with this ID"
  | some p =>
    if p.state = ProposalState.Created then
      match recordLoop c.registered_workers now p.worker_submissions submissions with
      | Except.error e => Except.error e
      | Except.ok subs =>
        let p' := { p with worker_submissions := subs, state := ProposalState.WorkersCompleted }
        Except.ok { c with proposals := mapInsert c.proposals proposal_id p' }
    else Except.error "Proposal not in Created state - cannot record submissions"

/-- `coordinator_resume` of lib.rs.  On success it returns the (unchanged)
contract state together with the resume action handed to the host:
`(yield_id, payload)` for `env::promise_yield_resume`. -/
def coordinator_resume (c : CoordinatorContract) (caller : String)
    (proposal_id : Nat) (aggregated_result config_hash result_hash : String) :
    Except String (CoordinatorContract × Nat × String) :=
  match require_approved_codehash c caller with
  | Except.error e => Except.error e
  | Except.ok _ =>
  match mapLookup c.proposals proposal_id with
  | none => Except.error "No proposal with this ID"
  | some p =>
    if p.state = ProposalState.WorkersCompleted then
      if p.config_hash = config_hash then
        if hash aggregated_result = result_hash then
          Except.ok (c, p.yield_id, aggregated_result)
        else Except.error "Result hash mismatch - result integrity check failed"
      else Except.error "Config hash mismatch - configuration was tampered with"
    else
      Except.error "Proposal not in WorkersCompleted state - record worker submissions first"

/-- `return_coordination_result` of lib.rs (the `#[private]` finalize
callback).  `response = some r` is the `Ok(result)` branch, `none` the
`Err(PromiseError)` (timeout) branch.  Note: no state-tag check is
performed; a missing proposal leaves the state untouched. -/
def return_coordination_result (c : CoordinatorContract) (proposal_id : Nat)
    (response : Option String) : CoordinatorContract :=
  match response with
  | some result =>
    match mapLookup c.proposals proposal_id with
    | some p =>
      let p' := { p with state := ProposalState.Finalized, finalized_result := some result }
      { c with proposals := mapInsert c.proposals proposal_id p' }
    | none => c
  | none =>
    match mapLookup c.proposals proposal_id with
    | some p =>
      let p' := { p with state := ProposalState.TimedOut }
      { c with proposals := mapInsert c.proposals proposal_id p' }
    | none => c

/-- `approve_codehash` of lib.rs. -/
def approve_codehash (c : CoordinatorContract) (caller codehash : String) :
    Except String CoordinatorContract :=
  match require_owner c caller with
  | Except.error e => Except.error e
  | Except.ok _ =>
  if c.approved_codehashes.contains codehash then Except.ok c
  else Except.ok { c with approved_codehashes := c.approved_codehashes ++ [codehash] }

/-- `register_coordinator` of lib.rs.  Note the source calls
`require_owner` first: only the owner can register, in addition to the
approved-codehash gate. -/
def register_coordinator (c : CoordinatorContract) (caller checksum codehash : String) :
    Except String CoordinatorContract :=
  match require_owner c caller with
  | Except.error e => Except.error e
  | Except.ok _ =>
  if c.approved_codehashes.contains codehash then
    let m := mapInsert c.coordinator_by_account_id caller ⟨checksum, codehash⟩
    Except.ok { c with coordinator_by_account_id := m }
  else Except.error "Codehash not approved. Owner must approve_codehash first."

/-- `remove_codehash` of lib.rs. -/
def remove_codehash (c : CoordinatorContract) (caller codehash : String) :
    Except String CoordinatorContract :=
  match require_owner c caller with
  | Except.error e => Except.error e
  | Except.ok _ =>
  let s := c.approved_codehashes.filter (fun h => h ≠ codehash)
  Except.ok { c with approved_codehashes := s }

/-- `clear_proposal` of lib.rs.  `IterableMap::remove` on a missing key is
a silent no-op, so this succeeds whether or not the proposal exists. -/
def clear_proposal (c : CoordinatorContract) (caller : String) (proposal_id : Nat) :
    Except String CoordinatorContract :=
  match require_owner c caller with
  | Except.error e => Except.error e
  | Except.ok _ =>
  Except.ok { c with proposals := mapRemove c.proposals proposal_id }

/-- `register_worker` of lib.rs.  Note the gate: owner, or any caller with
a binding in `coordinator_by_account_id` (`contains_key` — the bound
codehash is NOT re-checked against the approved set). -/
def register_worker (c : CoordinatorContract) (caller worker_id : String)
    (account_id : Option String) (now : Nat) : Except String CoordinatorContract :=
  if caller = c.owner ∨ (mapLookup c.coordinator_by_account_id caller).isSome then
    let m := mapInsert c.registered_workers worker_id ⟨worker_id, account_id, now, caller, true⟩
    Except.ok { c with registered_workers := m }
  else Except.error "Only owner or registered coordinator can register workers"

/-- `remove_worker` of lib.rs. -/
def remove_worker (c : CoordinatorContract) (caller worker_id : String) :
    Except String CoordinatorContract :=
  match require_owner c caller with
  | Except.error e => Except.error e
  | Except.ok _ =>
  Except.ok { c with registered_workers := mapRemove c.registered_workers worker_id }

/-- `deactivate_worker` of lib.rs. -/
def deactivate_worker (c : CoordinatorContract) (caller worker_id : String) :
    Except String CoordinatorContract :=
  match require_owner c caller with
  | Except.error e => Except.error e
  | Except.ok _ =>
  match mapLookup c.registered_workers worker_id with
  | some w =>
    let m := mapInsert c.registered_workers worker_id { w with active := false }
    Except.ok { c with registered_workers := m }
  | none => Except.error "Worker not found"

/-- `activate_worker` of lib.rs. -/
def activate_worker (c : CoordinatorContract) (caller worker_id : String) :
    Except String CoordinatorContract :=
  match require_owner c caller with
  | Except.error e => Except.error e
  | Except.ok _ =>
  match mapLookup c.registered_workers worker_id with
  | some w =>
    let m := mapInsert c.registered_workers worker_id { w with active := true }
    Except.ok { c with registered_workers := m }
  | none => Except.error "Worker not found"

/-- `transfer_ownership` of lib.rs. -/
def transfer_ownership (c : CoordinatorContract) (caller new_owner : String) :
    Except String CoordinatorContract :=
  match require_owner c caller with
  | Except.error e => Except.error e
  | Except.ok _ =>
  Except.ok { c with owner := new_owner }

/-! ### World model: contract state + host-side yield bookkeeping

Modelled from the spec (§4.2 Suspend/Resume Continuation Bridge): the host
registers a pending continuation per `promise_yield_create`, invokes the
finalize callback exactly once per continuation — with the resumed payload
if `promise_yield_resume` was called, or with a timeout error no later than
a host-defined timeout horizon (which may elapse at any time while the
continuation is still pending, independent of the proposal's state) — and
treats a resume of an already-resolved continuation as a no-op.

Yield ids are issued sequentially: yield id `i` is position `i` of
`World.yields`, holding the proposal id it was created for and its
status. -/

inductive YieldStatus : Type
  | pending
  | resumed (payload : String)
  | delivered
deriving DecidableEq, Repr

structure World : Type where
  contract : CoordinatorContract
  yields : List (Nat × YieldStatus)
deriving DecidableEq, Repr

def initWorld (owner : String) : World :=
  { contract := newContract owner, yields := [] }

/-- Mark yield `i` as resumed with the given payload, but only if it is
still pending (the host ignores a resume of a resolved continuation). -/
def resumeYield : List (Nat × YieldStatus) → Nat → String → List (Nat × YieldStatus)
  | [], _, _ => []
  | e :: rest, 0, s =>
    (match e with
     | (pid, YieldStatus.pending) => (pid, YieldStatus.resumed s)
     | other => other) :: rest
  | e :: rest, n + 1, s => e :: resumeYield rest n s

/-- Mark yield `i` as delivered (its callback has run). -/
def markDelivered : List (Nat × YieldStatus) → Nat → List (Nat × YieldStatus)
  | [], _ => []
  | (pid, _) :: rest, 0 => (pid, YieldStatus.delivered) :: rest
  | e :: rest, n + 1 => e :: markDelivered rest n

/-- Lift a plain contract call: on success replace the contract state; on
failure (a NEAR panic) the whole call is rolled back and the world is
unchanged. -/
def applyE (w : World) (r : Except String CoordinatorContract) : World :=
  match r with
  | Except.ok c => { w with contract := c }
  | Except.error _ => w

def applyStart (w : World) (caller cfg : String) (now : Nat) : World :=
  match start_coordination w.contract caller cfg now w.yields.length with
  | Except.ok (c, pid) => ⟨c, w.yields ++ [(pid, YieldStatus.pending)]⟩
  | Except.error _ => w

def applyResume (w : World) (caller : String) (pid : Nat)
    (result config_hash result_hash : String) : World :=
  match coordinator_resume w.contract caller pid result config_hash result_hash with
  | Except.ok (c, yid, payload) => ⟨c, resumeYield w.yields yid payload⟩
  | Except.error _ => w

/-- Host delivers the finalize callback with the resumed payload.  Only a
continuation that was actually resumed can be delivered successfully. -/
def applyDeliverOk (w : World) (yid : Nat) : World :=
  match w.yields[yid]? with
  | some (pid, YieldStatus.resumed payload) =>
    ⟨return_coordination_result w.contract pid (some payload), markDelivered w.yields yid⟩
  | _ => w

/-- Host delivers the finalize callback with a timeout error.  This can
happen to any continuation still pending (never resumed), at any time. -/
def applyDeliverTimeout (w : World) (yid : Nat) : World :=
  match w.yields[yid]? with
  | some (pid, YieldStatus.pending) =>
    ⟨return_coordination_result w.contract pid none, markDelivered w.yields yid⟩
  | _ => w

/-- One world step: any contract entry point invoked by any caller at any
time, or a host callback delivery.  Failed calls roll back atomically
(`applyE`), so they appear as stuttering steps. -/
inductive Step : World → World → Prop
  | set_manifesto (w : World) (caller text : String) :
      Step w (applyE w (set_manifesto w.contract caller text))
  | start (w : World) (caller cfg : String) (now : Nat) :
      Step w (applyStart w caller cfg now)
  | record (w : World) (caller : String) (now pid : Nat)
      (subs : List WorkerSubmissionInput) :
      Step w (applyE w (record_worker_submissions w.contract caller now pid subs))
  | resume (w : World) (caller : String) (pid : Nat) (result ch rh : String) :
      Step w (applyResume w caller pid result ch rh)
  | deliverOk (w : World) (yid : Nat) :
      Step w (applyDeliverOk w yid)
  | deliverTimeout (w : World) (yid : Nat) :
      Step w (applyDeliverTimeout w yid)
  | approve (w : World) (caller ch : String) :
      Step w (applyE w (approve_codehash w.contract caller ch))
  | registerCoordinator (w : World) (caller cs ch : String) :
      Step w (applyE w (register_coordinator w.contract caller cs ch))
  | removeCodehash (w : World) (caller ch : String) :
      Step w (applyE w (remove_codehash w.contract caller ch))
  | clearProposal (w : World) (caller : String) (pid : Nat) :
      Step w (applyE w (clear_proposal w.contract caller pid))
  | registerWorker (w : World) (caller wid : String) (acct : Option String) (now : Nat) :
      Step w (applyE w (register_worker w.contract caller wid acct now))
  | removeWorker (w : World) (caller wid : String) :
      Step w (applyE w (remove_worker w.contract caller wid))
  | deactivateWorker (w : World) (caller wid : String) :
      Step w (applyE w (deactivate_worker w.contract caller wid))
  | activateWorker (w : World) (caller wid : String) :
      Step w (applyE w (activate_worker w.contract caller wid))
  | transferOwnership (w : World) (caller newOwner : String) :
      Step w (applyE w (transfer_ownership w.contract caller newOwner))

/-- Worlds reachable from a freshly initialised contract. -/
inductive Reachable (owner : String) : World → Prop
  | init : Reachable owner (initWorld owner)
  | step {w w' : World} : Reachable owner w → Step w w' → Reachable owner w'

/-! ### Lemmas about the map and yield-list helpers -/

theorem mapLookup_insert_self {κ α : Type} [DecidableEq κ] (m : List (κ × α)) (k : κ) (v : α) :
    mapLookup (mapInsert m k v) k = some v := by
  induction m with
  | nil => simp [mapInsert, mapLookup]
  | cons e rest ih =>
    obtain ⟨k', v'⟩ := e
    by_cases h : k' = k
    · subst h; simp [mapInsert, mapLookup]
    · simp [mapInsert, mapLookup, h, ih]

theorem mapLookup_insert_ne {κ α : Type} [DecidableEq κ] (m : List (κ × α)) (k k' : κ) (v : α)
    (h : k' ≠ k) : mapLookup (mapInsert m k v) k' = mapLookup m k' := by
  induction m with
  | nil => simp [mapInsert, mapLookup, Ne.symm h]
  | cons e rest ih =>
    obtain ⟨k₀, v₀⟩ := e
    by_cases h₀ : k₀ = k
    · subst h₀; simp [mapInsert, mapLookup, Ne.symm h]
    · simp only [mapInsert, if_neg h₀, mapLookup]
      by_cases h₁ : k₀ = k'
      · simp [h₁]
      · simp [h₁, ih]

theorem mapLookup_insert_inv {κ α : Type} [DecidableEq κ] {m : List (κ × α)} {k k' : κ}
    {v q : α} (h : mapLookup (mapInsert m k v) k' = some q) :
    (k' = k ∧ q = v) ∨ (k' ≠ k ∧ mapLookup m k' = some q) := by
  by_cases e : k' = k
  · subst e
    rw [mapLookup_insert_self] at h
    exact Or.inl ⟨rfl, (Option.some.inj h).symm⟩
  · rw [mapLookup_insert_ne _ _ _ _ e] at h
    exact Or.inr ⟨e, h⟩

theorem mapLookup_remove_self {κ α : Type} [DecidableEq κ] (m : List (κ × α)) (k : κ) :
    mapLookup (mapRemove m k) k = none := by
  induction m with
  | nil => simp [mapRemove, mapLookup]
  | cons e rest ih =>
    obtain ⟨k₀, v₀⟩ := e
    by_cases h : k₀ = k
    · subst h; simpa [mapRemove, mapLookup] using ih
    · simpa [mapRemove, mapLookup, h] using ih

theorem mapLookup_remove_ne {κ α : Type} [DecidableEq κ] (m : List (κ × α)) (k k' : κ)
    (h : k' ≠ k) : mapLookup (mapRemove m k) k' = mapLookup m k' := by
  induction m with
  | nil => simp [mapRemove, mapLookup]
  | cons e rest ih =>
    obtain ⟨k₀, v₀⟩ := e
    by_cases h₀ : k₀ = k
    · subst h₀; simpa [mapRemove, mapLookup, Ne.symm h] using ih
    · by_cases h₁ : k₀ = k'
      · subst h₁; simp [mapRemove, mapLookup, h₀]
      · simpa [mapRemove, mapLookup, h₀, h₁] using ih

theorem mapLookup_remove_inv {κ α : Type} [DecidableEq κ] {m : List (κ × α)} {k k' : κ}
    {q : α} (h : mapLookup (mapRemove m k) k' = some q) :
    k' ≠ k ∧ mapLookup m k' = some q := by
  by_cases e : k' = k
  · subst e; rw [mapLookup_remove_self] at h; cases h
  · rw [mapLookup_remove_ne _ _ _ e] at h; exact ⟨e, h⟩

theorem resumeYield_cases (l : List (Nat × YieldStatus)) (i : Nat) (s : String) (j : Nat) :
    (resumeYield l i s)[j]? = l[j]? ∨
      (j = i ∧ ∃ pid, l[i]? = some (pid, YieldStatus.pending) ∧
        (resumeYield l i s)[i]? = some (pid, YieldStatus.resumed s)) := by
  induction l generalizing i j with
  | nil => left; simp [resumeYield]
  | cons e rest ih =>
    cases i with
    | zero =>
      cases j with
      | zero =>
        obtain ⟨pid, st⟩ := e
        cases st with
        | pending => right; exact ⟨rfl, pid, by simp [resumeYield], by simp [resumeYield]⟩
        | resumed p => left; simp [resumeYield]
        | delivered => left; simp [resumeYield]
      | succ j' => left; simp [resumeYield]
    | succ i' =>
      cases j with
      | zero => left; simp [resumeYield]
      | succ j' =>
        rcases ih i' j' with h | ⟨hji, pid, h1, h2⟩
        · left; simpa [resumeYield] using h
        · right
          refine ⟨by rw [hji], pid, ?_, ?_⟩
          · simpa [resumeYield] using h1
          · simpa [resumeYield] using h2

theorem markDelivered_cases (l : List (Nat × YieldStatus)) (i : Nat) (j : Nat) :
    (markDelivered l i)[j]? = l[j]? ∨
      (j = i ∧ ∃ pid st, l[i]? = some (pid, st) ∧
        (markDelivered l i)[i]? = some (pid, YieldStatus.delivered)) := by
  induction l generalizing i j with
  | nil => left; simp [markDelivered]
  | cons e rest ih =>
    cases i with
    | zero =>
      cases j with
      | zero =>
        obtain ⟨pid, st⟩ := e
        right; exact ⟨rfl, pid, st, by simp [markDelivered], by simp [markDelivered]⟩
      | succ j' => left; obtain ⟨pid, st⟩ := e; simp [markDelivered]
    | succ i' =>
      cases j with
      | zero => left; cases e; simp [markDelivered]
      | succ j' =>
        rcases ih i' j' with h | ⟨hji, pid, st, h1, h2⟩
        · left; cases e; simpa [markDelivered] using h
        · right
          refine ⟨by rw [hji], pid, st, ?_, ?_⟩
          · cases e; simpa [markDelivered] using h1
          · cases e; simpa [markDelivered] using h2

/-- Status updates never change which proposal a yield belongs to. -/
theorem resumeYield_fst_inv {l : List (Nat × YieldStatus)} {i : Nat} {s : String} {j : Nat}
    {pid : Nat} {st : YieldStatus} (h : (resumeYield l i s)[j]? = some (pid, st)) :
    ∃ st₀, l[j]? = some (pid, st₀) := by
  rcases resumeYield_cases l i s j with hc | ⟨hji, pid₀, h1, h2⟩
  · exact ⟨st, hc ▸ h⟩
  · subst hji
    rw [h2] at h
    obtain ⟨h3, _⟩ := Prod.mk.injEq .. ▸ (Option.some.inj h)
    exact ⟨YieldStatus.pending, h3 ▸ h1⟩

theorem markDelivered_fst_inv {l : List (Nat × YieldStatus)} {i : Nat} {j : Nat}
    {pid : Nat} {st : YieldStatus} (h : (markDelivered l i)[j]? = some (pid, st)) :
    ∃ st₀, l[j]? = some (pid, st₀) := by
  rcases markDelivered_cases l i j with hc | ⟨hji, pid₀, st₀, h1, h2⟩
  · exact ⟨st, hc ▸ h⟩
  · subst hji
    rw [h2] at h
    obtain ⟨h3, _⟩ := Prod.mk.injEq .. ▸ (Option.some.inj h)
    exact ⟨st₀, h3 ▸ h1⟩

/-! ### Characterisation of the entry points' successful outcomes -/

theorem set_manifesto_ok {c c' : CoordinatorContract} {caller t : String}
    (h : set_manifesto c caller t = Except.ok c') :
    c'.proposals = c.proposals ∧ c'.current_proposal_id = c.current_proposal_id := by
  unfold set_manifesto at h
  split at h
  · cases h
  · split at h
    · cases h; exact ⟨rfl, rfl⟩
    · cases h

theorem approve_codehash_ok {c c' : CoordinatorContract} {caller ch : String}
    (h : approve_codehash c caller ch = Except.ok c') :
    c'.proposals = c.proposals ∧ c'.current_proposal_id = c.current_proposal_id := by
  unfold approve_codehash at h
  split at h
  · cases h
  · split at h
    · cases h; exact ⟨rfl, rfl⟩
    · cases h; exact ⟨rfl, rfl⟩

theorem register_coordinator_ok {c c' : CoordinatorContract} {caller cs ch : String}
    (h : register_coordinator c caller cs ch = Except.ok c') :
    c'.proposals = c.proposals ∧ c'.current_proposal_id = c.current_proposal_id := by
  unfold register_coordinator at h
  split at h
  · cases h
  · split at h
    · cases h; exact ⟨rfl, rfl⟩
    · cases h

theorem remove_codehash_ok {c c' : CoordinatorContract} {caller ch : String}
    (h : remove_codehash c caller ch = Except.ok c') :
    c'.proposals = c.proposals ∧ c'.current_proposal_id = c.current_proposal_id := by
  unfold remove_codehash at h
  split at h
  · cases h
  · cases h; exact ⟨rfl, rfl⟩

theorem register_worker_ok {c c' : CoordinatorContract} {caller wid : String}
    {acct : Option String} {now : Nat}
    (h : register_worker c caller wid acct now = Except.ok c') :
    c'.proposals = c.proposals ∧ c'.current_proposal_id = c.current_proposal_id := by
  unfold register_worker at h
  split at h
  · cases h; exact ⟨rfl, rfl⟩
  · cases h

theorem remove_worker_ok {c c' : CoordinatorContract} {caller wid : String}
    (h : remove_worker c caller wid = Except.ok c') :
    c'.proposals = c.proposals ∧ c'.current_proposal_id = c.current_proposal_id := by
  unfold remove_worker at h
  split at h
  · cases h
  · cases h; exact ⟨rfl, rfl⟩

theorem deactivate_worker_ok {c c' : CoordinatorContract} {caller wid : String}
    (h : deactivate_worker c caller wid = Except.ok c') :
    c'.proposals = c.proposals ∧ c'.current_proposal_id = c.current_proposal_id := by
  unfold deactivate_worker at h
  split at h
  · cases h
  · split at h
    · cases h; exact ⟨rfl, rfl⟩
    · cases h

theorem activate_worker_ok {c c' : CoordinatorContract} {caller wid : String}
    (h : activate_worker c caller wid = Except.ok c') :
    c'.proposals = c.proposals ∧ c'.current_proposal_id = c.current_proposal_id := by
  unfold activate_worker at h
  split at h
  · cases h
  · split at h
    · cases h; exact ⟨rfl, rfl⟩
    · cases h

theorem transfer_ownership_ok {c c' : CoordinatorContract} {caller o : String}
    (h : transfer_ownership c caller o = Except.ok c') :
    c'.proposals = c.proposals ∧ c'.current_proposal_id = c.current_proposal_id := by
  unfold transfer_ownership at h
  split at h
  · cases h
  · cases h; exact ⟨rfl, rfl⟩

theorem clear_proposal_ok {c c' : CoordinatorContract} {caller : String} {pid : Nat}
    (h : clear_proposal c caller pid = Except.ok c') :
    c'.current_proposal_id = c.current_proposal_id ∧
      c'.proposals = mapRemove c.proposals pid := by
  unfold clear_proposal at h
  split at h
  · cases h
  · cases h; exact ⟨rfl, rfl⟩

theorem start_coordination_ok {c c' : CoordinatorContract} {caller cfg : String}
    {now yid pid : Nat}
    (h : start_coordination c caller cfg now yid = Except.ok (c', pid)) :
    pid = c.current_proposal_id + 1 ∧ c'.current_proposal_id = pid ∧
      c'.proposals = mapInsert c.proposals pid ⟨yid, cfg, hash cfg, now, caller, ProposalState.Created, [], none⟩ := by
  unfold start_coordination at h
  split at h
  · split at h
    · cases h; exact ⟨rfl, rfl, rfl⟩
    · cases h
  · cases h

theorem record_worker_submissions_ok {c c' : CoordinatorContract} {caller : String}
    {now pid : Nat} {subs : List WorkerSubmissionInput}
    (h : record_worker_submissions c caller now pid subs = Except.ok c') :
    ∃ p subs', mapLookup c.proposals pid = some p ∧
      p.state = ProposalState.Created ∧
      recordLoop c.registered_workers now p.worker_submissions subs = Except.ok subs' ∧
      c'.current_proposal_id = c.current_proposal_id ∧
      c'.proposals = mapInsert c.proposals pid { p with worker_submissions := subs', state := ProposalState.WorkersCompleted } := by
  unfold record_worker_submissions at h
  split at h
  · cases h
  · split at h
    · cases h
    next p hp =>
      split at h
      next hstate =>
        split at h
        · cases h
        next subs' hloop => cases h; exact ⟨p, subs', hp, hstate, hloop, rfl, rfl⟩
      · cases h

theorem coordinator_resume_ok {c c' : CoordinatorContract} {caller : String} {pid : Nat}
    {result ch rh : String} {yid : Nat} {payload : String}
    (h : coordinator_resume c caller pid result ch rh = Except.ok (c', yid, payload)) :
    c' = c ∧ payload = result ∧
      ∃ p, mapLookup c.proposals pid = some p ∧
        p.state = ProposalState.WorkersCompleted ∧ yid = p.yield_id ∧
        p.config_hash = ch ∧ hash result = rh := by
  unfold coordinator_resume at h
  split at h
  · cases h
  · split at h
    · cases h
    next p hp =>
      split at h
      next hstate =>
        split at h
        next hch =>
          split at h
          next hrh => cases h; exact ⟨rfl, rfl, p, hp, hstate, rfl, hch, hrh⟩
          · cases h
        · cases h
      · cases h

/-- Full inversion of a successful `recordLoop` run: every submission in
the batch named an active worker, no submission collided with the
accumulator or with an earlier batch entry, and the result is the
accumulator extended by the batch in order. -/
theorem recordLoop_ok_inv {regs : List (String × RegisteredWorker)} {now : Nat}
    {acc res : List WorkerSubmission} {subs : List WorkerSubmissionInput}
    (h : recordLoop regs now acc subs = Except.ok res) :
    (∀ s ∈ subs, workerActive regs s.worker_id = true) ∧
      (∀ s ∈ subs, ∀ a ∈ acc, a.worker_id ≠ s.worker_id) ∧
      (subs.map (fun s => s.worker_id)).Nodup ∧
      res.map (fun s => s.worker_id) =
        acc.map (fun s => s.worker_id) ++ subs.map (fun s => s.worker_id) := by
  induction subs generalizing acc with
  | nil =>
    cases h
    exact ⟨by simp, by simp, List.nodup_nil, by simp⟩
  | cons sub rest ih =>
    unfold recordLoop at h
    split at h
    case isTrue hact =>
      split at h
      · cases h
      case isFalse hany =>
        obtain ⟨ih1, ih2, ih3, ih4⟩ := ih h
        have hnotin : ∀ a ∈ acc, a.worker_id ≠ sub.worker_id := by
          intro a ha
          intro heq
          have : acc.any (fun s => s.worker_id = sub.worker_id) = true :=
            List.any_eq_true.mpr ⟨a, ha, decide_eq_true heq⟩
          exact hany this
        refine ⟨?_, ?_, ?_, ?_⟩
        · intro s hs
          rcases List.mem_cons.mp hs with rfl | hs'
          · exact hact
          · exact ih1 s hs'
        · intro s hs a ha
          rcases List.mem_cons.mp hs with rfl | hs'
          · exact hnotin a ha
          · exact ih2 s hs' a (List.mem_append_left _ ha)
        · refine List.Nodup.cons ?_ ih3
          intro hmem
          rcases List.mem_map.mp hmem with ⟨s, hs, hsid⟩
          have := ih2 s hs ⟨sub.worker_id, sub.result_hash, now⟩
            (List.mem_append_right _ (List.mem_singleton.mpr rfl))
          exact this hsid.symm
        · rw [ih4]
          simp
    · cases h

/-- Successful `recordLoop` preserves worker-id uniqueness. -/
theorem recordLoop_nodup {regs : List (String × RegisteredWorker)} {now : Nat}
    {acc res : List WorkerSubmission} {subs : List WorkerSubmissionInput}
    (h : recordLoop regs now acc subs = Except.ok res)
    (hacc : (acc.map (fun s => s.worker_id)).Nodup) :
    (res.map (fun s => s.worker_id)).Nodup := by
  obtain ⟨_, h2, h3, h4⟩ := recordLoop_ok_inv h
  rw [h4]
  rw [List.nodup_append]
  refine ⟨hacc, h3, ?_⟩
  intro x hx hy
  rcases List.mem_map.mp hx with ⟨a, ha, hax⟩
  rcases List.mem_map.mp hy with ⟨s, hs, hsx⟩
  exact h2 s hs a ha (hax.trans hsx.symm)

theorem getElem?_some_lt {α : Type} {l : List α} {i : Nat} {a : α}
    (h : l[i]? = some a) : i < l.length := by
  by_contra hn
  rw [List.getElem?_eq_none (Nat.le_of_not_lt hn)] at h
  cases h

theorem markDelivered_ne (l : List (Nat × YieldStatus)) (i j : Nat) (hne : j ≠ i) :
    (markDelivered l i)[j]? = l[j]? := by
  induction l generalizing i j with
  | nil => simp [markDelivered]
  | cons e rest ih =>
    cases i with
    | zero =>
      cases j with
      | zero => exact absurd rfl hne
      | succ j' => cases e; simp [markDelivered]
    | succ i' =>
      cases j with
      | zero => cases e; simp [markDelivered]
      | succ j' =>
        have : j' ≠ i' := fun hc => hne (by rw [hc])
        cases e
        simpa [markDelivered] using ih i' j' this

theorem markDelivered_self {l : List (Nat × YieldStatus)} {i pid : Nat} {st : YieldStatus}
    (h : l[i]? = some (pid, st)) :
    (markDelivered l i)[i]? = some (pid, YieldStatus.delivered) := by
  induction l generalizing i with
  | nil => cases h
  | cons e rest ih =>
    cases i with
    | zero =>
      obtain ⟨p₀, s₀⟩ := e
      simp only [List.getElem?_cons_zero] at h
      obtain ⟨h1, _⟩ := Prod.mk.injEq .. ▸ (Option.some.inj h)
      simp [markDelivered, h1]
    | succ i' =>
      cases e
      simp only [List.getElem?_cons_succ] at h
      simpa [markDelivered] using ih h

theorem resumeYield_ne (l : List (Nat × YieldStatus)) (i j : Nat) (s : String)
    (hne : j ≠ i) : (resumeYield l i s)[j]? = l[j]? := by
  induction l generalizing i j with
  | nil => simp [resumeYield]
  | cons e rest ih =>
    cases i with
    | zero =>
      cases j with
      | zero => exact absurd rfl hne
      | succ j' => simp [resumeYield]
    | succ i' =>
      cases j with
      | zero => simp [resumeYield]
      | succ j' =>
        have : j' ≠ i' := fun hc => hne (by rw [hc])
        simpa [resumeYield] using ih i' j' this

theorem resumeYield_self {l : List (Nat × YieldStatus)} {i pid : Nat} {s : String}
    (h : l[i]? = some (pid, YieldStatus.pending)) :
    (resumeYield l i s)[i]? = some (pid, YieldStatus.resumed s) := by
  induction l generalizing i with
  | nil => cases h
  | cons e rest ih =>
    cases i with
    | zero =>
      simp only [List.getElem?_cons_zero] at h
      rw [Option.some.inj h]
      simp [resumeYield]
    | succ i' =>
      simp only [List.getElem?_cons_succ] at h
      simpa [resumeYield] using ih h

/-! ### The inductive invariant of reachable worlds -/

/-- Invariant tying the contract state to the host-side yield ledger:
proposal ids are bounded by the allocation counter, each yield belongs to
at most one proposal, every proposal's continuation token is a live entry
of the yield ledger, a resumed continuation's proposal is in
`WorkersCompleted`, a proposal reaches a terminal state only through its
callback delivery, and worker submissions are nullifier-unique. -/
structure SysInv (c : CoordinatorContract) (ys : List (Nat × YieldStatus)) : Prop where
  prop_bound : ∀ pid p, mapLookup c.proposals pid = some p →
    pid ≤ c.current_proposal_id
  yield_pid_bound : ∀ (i pid : Nat) (st : YieldStatus), ys[i]? = some (pid, st) →
    pid ≤ c.current_proposal_id
  pid_inj : ∀ (i j pi pj : Nat) (si sj : YieldStatus), ys[i]? = some (pi, si) →
    ys[j]? = some (pj, sj) → pi = pj → i = j
  prop_yield : ∀ pid p, mapLookup c.proposals pid = some p →
    ∃ st, ys[p.yield_id]? = some (pid, st)
  resumed_wc : ∀ (i pid : Nat) (s : String), ys[i]? = some (pid, YieldStatus.resumed s) →
    ∀ p, mapLookup c.proposals pid = some p →
    p.state = ProposalState.WorkersCompleted
  terminal_delivered : ∀ (i pid : Nat) (st : YieldStatus), ys[i]? = some (pid, st) →
    ∀ p, mapLookup c.proposals pid = some p →
    p.state = ProposalState.Finalized ∨ p.state = ProposalState.TimedOut →
    st = YieldStatus.delivered
  nodup_subs : ∀ pid p, mapLookup c.proposals pid = some p →
    (p.worker_submissions.map (fun s => s.worker_id)).Nodup

/-- Operations that touch neither `proposals` nor the id counter preserve
the invariant. -/
theorem inv_frame {c c' : CoordinatorContract} {ys : List (Nat × YieldStatus)}
    (hw : SysInv c ys) (hp : c'.proposals = c.proposals)
    (hc : c'.current_proposal_id = c.current_proposal_id) : SysInv c' ys := by
  refine ⟨?_, ?_, hw.pid_inj, ?_, ?_, ?_, ?_⟩
  · intro pid p h
    rw [hp] at h
    rw [hc]
    exact hw.prop_bound pid p h
  · intro i pid st h
    rw [hc]
    exact hw.yield_pid_bound i pid st h
  · intro pid p h
    rw [hp] at h
    exact hw.prop_yield pid p h
  · intro i pid s h p hp2
    rw [hp] at hp2
    exact hw.resumed_wc i pid s h p hp2
  · intro i pid st h p hp2 hterm
    rw [hp] at hp2
    exact hw.terminal_delivered i pid st h p hp2 hterm
  · intro pid p h
    rw [hp] at h
    exact hw.nodup_subs pid p h

theorem inv_start {c c' : CoordinatorContract} {ys : List (Nat × YieldStatus)}
    {caller cfg : String} {now pid : Nat} (hw : SysInv c ys)
    (h : start_coordination c caller cfg now ys.length = Except.ok (c', pid)) :
    SysInv c' (ys ++ [(pid, YieldStatus.pending)]) := by
  obtain ⟨hpid, hcur, hprops⟩ := start_coordination_ok h
  have hylen : ∀ {j : Nat} {pj : Nat} {sj : YieldStatus},
      ys[j]? = some (pj, sj) → pj ≤ c.current_proposal_id :=
    fun hj => hw.yield_pid_bound _ _ _ hj
  refine ⟨?_, ?_, ?_, ?_, ?_, ?_, ?_⟩
  · intro pid' p hlook
    rw [hprops] at hlook
    rw [hcur]
    rcases mapLookup_insert_inv hlook with ⟨rfl, _⟩ | ⟨_, hold⟩
    · exact le_refl _
    · have := hw.prop_bound _ _ hold
      omega
  · intro i pid' st hi
    rw [List.getElem?_append] at hi
    rw [hcur]
    split at hi
    · have := hylen hi
      omega
    · cases hd : i - ys.length with
      | zero =>
        rw [hd, List.getElem?_cons_zero] at hi
        obtain ⟨h1, _⟩ := Prod.mk.injEq .. ▸ (Option.some.inj hi)
        omega
      | succ k =>
        rw [hd, List.getElem?_cons_succ, List.getElem?_nil] at hi
        cases hi
  · intro i j pi pj si sj hi hj heq
    rw [List.getElem?_append] at hi hj
    split at hi <;> split at hj
    · exact hw.pid_inj i j pi pj si sj hi hj heq
    next hilt hjge =>
      exfalso
      cases hd : j - ys.length with
      | zero =>
        rw [hd, List.getElem?_cons_zero] at hj
        obtain ⟨h1, _⟩ := Prod.mk.injEq .. ▸ (Option.some.inj hj)
        have := hylen hi
        omega
      | succ k =>
        rw [hd, List.getElem?_cons_succ, List.getElem?_nil] at hj
        cases hj
    next hige hjlt =>
      exfalso
      cases hd : i - ys.length with
      | zero =>
        rw [hd, List.getElem?_cons_zero] at hi
        obtain ⟨h1, _⟩ := Prod.mk.injEq .. ▸ (Option.some.inj hi)
        have := hylen hj
        omega
      | succ k =>
        rw [hd, List.getElem?_cons_succ, List.getElem?_nil] at hi
        cases hi
    next hige hjge =>
      cases hdi : i - ys.length with
      | zero =>
        cases hdj : j - ys.length with
        | zero => omega
        | succ k =>
          rw [hdj, List.getElem?_cons_succ, List.getElem?_nil] at hj
          cases hj
      | succ k =>
        rw [hdi, List.getElem?_cons_succ, List.getElem?_nil] at hi
        cases hi
  · intro pid' p hlook
    rw [hprops] at hlook
    rcases mapLookup_insert_inv hlook with ⟨rfl, rfl⟩ | ⟨_, hold⟩
    · exact ⟨YieldStatus.pending, List.getElem?_concat_length ys _⟩
    · obtain ⟨st, hgs⟩ := hw.prop_yield _ _ hold
      have hlt : p.yield_id < ys.length := getElem?_some_lt hgs
      refine ⟨st, ?_⟩
      rw [List.getElem?_append, if_pos hlt]
      exact hgs
  · intro i pid' s hi p hlook
    rw [List.getElem?_append] at hi
    split at hi
    · have hble := hylen hi
      rw [hprops] at hlook
      rcases mapLookup_insert_inv hlook with ⟨rfl, _⟩ | ⟨_, hold⟩
      · omega
      · exact hw.resumed_wc _ _ _ hi p hold
    · cases hd : i - ys.length with
      | zero =>
        rw [hd, List.getElem?_cons_zero] at hi
        obtain ⟨_, h2⟩ := Prod.mk.injEq .. ▸ (Option.some.inj hi)
        cases h2
      | succ k =>
        rw [hd, List.getElem?_cons_succ, List.getElem?_nil] at hi
        cases hi
  · intro i pid' st hi p hlook hterm
    rw [List.getElem?_append] at hi
    split at hi
    · have hble := hylen hi
      rw [hprops] at hlook
      rcases mapLookup_insert_inv hlook with ⟨rfl, _⟩ | ⟨_, hold⟩
      · omega
      · exact hw.terminal_delivered _ _ _ hi p hold hterm
    · cases hd : i - ys.length with
      | zero =>
        rw [hd, List.getElem?_cons_zero] at hi
        obtain ⟨h1, _⟩ := Prod.mk.injEq .. ▸ (Option.some.inj hi)
        rw [hprops] at hlook
        rcases mapLookup_insert_inv hlook with ⟨_, rfl⟩ | ⟨hne, hold⟩
        · rcases hterm with h | h <;> cases h
        · exfalso
          have := hw.prop_bound _ _ hold
          omega
      | succ k =>
        rw [hd, List.getElem?_cons_succ, List.getElem?_nil] at hi
        cases hi
  · intro pid' p hlook
    rw [hprops] at hlook
    rcases mapLookup_insert_inv hlook with ⟨_, rfl⟩ | ⟨_, hold⟩
    · simp
    · exact hw.nodup_subs _ _ hold

theorem inv_record {c c' : CoordinatorContract} {ys : List (Nat × YieldStatus)}
    {caller : String} {now pid : Nat} {subs : List WorkerSubmissionInput}
    (hw : SysInv c ys)
    (h : record_worker_submissions c caller now pid subs = Except.ok c') :
    SysInv c' ys := by
  obtain ⟨p, subs', hlook, hstate, hloop, hcur, hprops⟩ := record_worker_submissions_ok h
  refine ⟨?_, ?_, hw.pid_inj, ?_, ?_, ?_, ?_⟩
  · intro pid' q hl
    rw [hprops] at hl
    rw [hcur]
    rcases mapLookup_insert_inv hl with ⟨rfl, _⟩ | ⟨_, hold⟩
    · exact hw.prop_bound _ _ hlook
    · exact hw.prop_bound _ _ hold
  · intro i pid' st hi
    rw [hcur]
    exact hw.yield_pid_bound _ _ _ hi
  · intro pid' q hl
    rw [hprops] at hl
    rcases mapLookup_insert_inv hl with ⟨rfl, rfl⟩ | ⟨_, hold⟩
    · obtain ⟨st, hgs⟩ := hw.prop_yield _ _ hlook
      exact ⟨st, hgs⟩
    · exact hw.prop_yield _ _ hold
  · intro i pid' s hi q hl
    rw [hprops] at hl
    rcases mapLookup_insert_inv hl with ⟨rfl, rfl⟩ | ⟨_, hold⟩
    · rfl
    · exact hw.resumed_wc _ _ _ hi q hold
  · intro i pid' st hi q hl hterm
    rw [hprops] at hl
    rcases mapLookup_insert_inv hl with ⟨rfl, rfl⟩ | ⟨_, hold⟩
    · rcases hterm with ht | ht <;> cases ht
    · exact hw.terminal_delivered _ _ _ hi q hold hterm
  · intro pid' q hl
    rw [hprops] at hl
    rcases mapLookup_insert_inv hl with ⟨rfl, rfl⟩ | ⟨_, hold⟩
    · exact recordLoop_nodup hloop (hw.nodup_subs _ _ hlook)
    · exact hw.nodup_subs _ _ hold

theorem resumeYield_self_stable {l : List (Nat × YieldStatus)} {i pid : Nat}
    {st : YieldStatus} (h : l[i]? = some (pid, st))
    (hne : st ≠ YieldStatus.pending) (s : String) :
    (resumeYield l i s)[i]? = l[i]? := by
  induction l generalizing i with
  | nil => cases h
  | cons e rest ih =>
    cases i with
    | zero =>
      simp only [List.getElem?_cons_zero] at h
      rw [Option.some.inj h]
      cases st with
      | pending => exact absurd rfl hne
      | resumed p => simp [resumeYield]
      | delivered => simp [resumeYield]
    | succ i' =>
      simp only [List.getElem?_cons_succ] at h
      simpa [resumeYield] using ih h

theorem inv_resume {c c' : CoordinatorContract} {ys : List (Nat × YieldStatus)}
    {caller : String} {pid : Nat} {result ch rh : String} {yid : Nat} {payload : String}
    (hw : SysInv c ys)
    (h : coordinator_resume c caller pid result ch rh = Except.ok (c', yid, payload)) :
    SysInv c' (resumeYield ys yid payload) := by
  obtain ⟨rfl, rfl, p, hlook, hstate, hyid, _, _⟩ := coordinator_resume_ok h
  subst hyid
  refine ⟨hw.prop_bound, ?_, ?_, ?_, ?_, ?_, hw.nodup_subs⟩
  · intro i pid' st hi
    obtain ⟨st₀, h₀⟩ := resumeYield_fst_inv hi
    exact hw.yield_pid_bound _ _ _ h₀
  · intro i j pi pj si sj hi hj heq
    obtain ⟨si₀, hi₀⟩ := resumeYield_fst_inv hi
    obtain ⟨sj₀, hj₀⟩ := resumeYield_fst_inv hj
    exact hw.pid_inj _ _ _ _ _ _ hi₀ hj₀ heq
  · intro pid' q hl
    obtain ⟨st, hgs⟩ := hw.prop_yield _ _ hl
    by_cases hq : q.yield_id = p.yield_id
    · rw [hq] at hgs ⊢
      cases st with
      | pending => exact ⟨_, resumeYield_self hgs⟩
      | resumed s =>
        refine ⟨YieldStatus.resumed s, ?_⟩
        rw [resumeYield_self_stable hgs (by simp) payload]
        exact hgs
      | delivered =>
        refine ⟨YieldStatus.delivered, ?_⟩
        rw [resumeYield_self_stable hgs (by simp) payload]
        exact hgs
    · rw [resumeYield_ne ys p.yield_id q.yield_id payload hq]
      exact ⟨st, hgs⟩
  · intro i pid' s hi q hl
    by_cases hiy : i = p.yield_id
    · subst hiy
      obtain ⟨st₀, h₀⟩ := resumeYield_fst_inv hi
      obtain ⟨st₁, hgs⟩ := hw.prop_yield _ _ hlook
      rw [h₀] at hgs
      obtain ⟨hpp, _⟩ := Prod.mk.injEq .. ▸ (Option.some.inj hgs)
      subst hpp
      have hq : p = q := Option.some.inj (hlook.symm.trans hl)
      rw [← hq]
      exact hstate
    · rw [resumeYield_ne ys p.yield_id i payload hiy] at hi
      exact hw.resumed_wc _ _ _ hi q hl
  · intro i pid' st hi q hl hterm
    by_cases hiy : i = p.yield_id
    · subst hiy
      obtain ⟨st₀, h₀⟩ := resumeYield_fst_inv hi
      obtain ⟨st₁, hgs⟩ := hw.prop_yield _ _ hlook
      rw [h₀] at hgs
      obtain ⟨hpp, _⟩ := Prod.mk.injEq .. ▸ (Option.some.inj hgs)
      subst hpp
      have hq : p = q := Option.some.inj (hlook.symm.trans hl)
      rw [← hq, hstate] at hterm
      rcases hterm with ht | ht <;> cases ht
    · rw [resumeYield_ne ys p.yield_id i payload hiy] at hi
      exact hw.terminal_delivered _ _ _ hi q hl hterm

/-- Marking a callback as delivered (status-only change) preserves the
invariant when the contract state is untouched. -/
theorem inv_markDelivered {c : CoordinatorContract} {ys : List (Nat × YieldStatus)}
    (hw : SysInv c ys) (yid : Nat) : SysInv c (markDelivered ys yid) := by
  refine ⟨hw.prop_bound, ?_, ?_, ?_, ?_, ?_, hw.nodup_subs⟩
  · intro i pid st hi
    obtain ⟨st₀, h₀⟩ := markDelivered_fst_inv hi
    exact hw.yield_pid_bound _ _ _ h₀
  · intro i j pi pj si sj hi hj heq
    obtain ⟨si₀, hi₀⟩ := markDelivered_fst_inv hi
    obtain ⟨sj₀, hj₀⟩ := markDelivered_fst_inv hj
    exact hw.pid_inj _ _ _ _ _ _ hi₀ hj₀ heq
  · intro pid q hl
    obtain ⟨st, hgs⟩ := hw.prop_yield _ _ hl
    by_cases hq : q.yield_id = yid
    · rw [hq] at hgs ⊢
      exact ⟨_, markDelivered_self hgs⟩
    · rw [markDelivered_ne ys yid q.yield_id hq]
      exact ⟨st, hgs⟩
  · intro i pid s hi q hl
    by_cases hiy : i = yid
    · subst hiy
      obtain ⟨st₀, h₀⟩ := markDelivered_fst_inv hi
      rw [markDelivered_self h₀] at hi
      obtain ⟨_, h2⟩ := Prod.mk.injEq .. ▸ (Option.some.inj hi)
      cases h2
    · rw [markDelivered_ne ys yid i hiy] at hi
      exact hw.resumed_wc _ _ _ hi q hl
  · intro i pid st hi q hl hterm
    by_cases hiy : i = yid
    · subst hiy
      obtain ⟨st₀, h₀⟩ := markDelivered_fst_inv hi
      rw [markDelivered_self h₀] at hi
      obtain ⟨_, h2⟩ := Prod.mk.injEq .. ▸ (Option.some.inj hi)
      exact h2.symm
    · rw [markDelivered_ne ys yid i hiy] at hi
      exact hw.terminal_delivered _ _ _ hi q hl hterm

/-- Delivering the callback for yield `yid` (owned by proposal `pid`) and
replacing that proposal with any record sharing its continuation token and
submission list preserves the invariant. -/
theorem inv_deliver_prop {c : CoordinatorContract} {ys : List (Nat × YieldStatus)}
    {yid pid : Nat} {st₀ : YieldStatus} {p p' : Proposal}
    (hw : SysInv c ys) (hy : ys[yid]? = some (pid, st₀))
    (hl : mapLookup c.proposals pid = some p)
    (hp'y : p'.yield_id = p.yield_id)
    (hp's : p'.worker_submissions = p.worker_submissions) :
    SysInv { c with proposals := mapInsert c.proposals pid p' } (markDelivered ys yid) := by
  refine ⟨?_, ?_, ?_, ?_, ?_, ?_, ?_⟩
  · intro pid' q hlq
    rcases mapLookup_insert_inv hlq with ⟨rfl, _⟩ | ⟨_, hold⟩
    · exact hw.prop_bound _ _ hl
    · exact hw.prop_bound _ _ hold
  · intro i pid' st hi
    obtain ⟨s₀, h₀⟩ := markDelivered_fst_inv hi
    exact hw.yield_pid_bound _ _ _ h₀
  · intro i j pi pj si sj hi hj heq
    obtain ⟨si₀, hi₀⟩ := markDelivered_fst_inv hi
    obtain ⟨sj₀, hj₀⟩ := markDelivered_fst_inv hj
    exact hw.pid_inj _ _ _ _ _ _ hi₀ hj₀ heq
  · intro pid' q hlq
    rcases mapLookup_insert_inv hlq with ⟨rfl, rfl⟩ | ⟨hne, hold⟩
    · obtain ⟨st₁, hgs⟩ := hw.prop_yield _ _ hl
      rw [hp'y]
      by_cases hq : p.yield_id = yid
      · rw [hq] at hgs ⊢
        exact ⟨_, markDelivered_self hgs⟩
      · rw [markDelivered_ne ys yid p.yield_id hq]
        exact ⟨st₁, hgs⟩
    · obtain ⟨st₁, hgs⟩ := hw.prop_yield _ _ hold
      by_cases hq : q.yield_id = yid
      · exfalso
        rw [hq] at hgs
        rw [hy] at hgs
        obtain ⟨h1, _⟩ := Prod.mk.injEq .. ▸ (Option.some.inj hgs)
        exact hne h1.symm
      · rw [markDelivered_ne ys yid q.yield_id hq]
        exact ⟨st₁, hgs⟩
  · intro i pid' s hi q hlq
    obtain ⟨s₀, h₀⟩ := markDelivered_fst_inv hi
    rcases mapLookup_insert_inv hlq with ⟨rfl, rfl⟩ | ⟨hne, hold⟩
    · exfalso
      have hiy : i = yid := hw.pid_inj _ _ _ _ _ _ h₀ hy rfl
      subst hiy
      rw [markDelivered_self h₀] at hi
      obtain ⟨_, h2⟩ := Prod.mk.injEq .. ▸ (Option.some.inj hi)
      cases h2
    · have hiy : i ≠ yid := by
        intro hc
        subst hc
        rw [hy] at h₀
        obtain ⟨h1, _⟩ := Prod.mk.injEq .. ▸ (Option.some.inj h₀)
        exact hne h1.symm
      rw [markDelivered_ne ys yid i hiy] at hi
      exact hw.resumed_wc _ _ _ hi q hold
  · intro i pid' st hi q hlq hterm
    obtain ⟨s₀, h₀⟩ := markDelivered_fst_inv hi
    rcases mapLookup_insert_inv hlq with ⟨rfl, rfl⟩ | ⟨hne, hold⟩
    · have hiy : i = yid := hw.pid_inj _ _ _ _ _ _ h₀ hy rfl
      subst hiy
      rw [markDelivered_self h₀] at hi
      obtain ⟨_, h2⟩ := Prod.mk.injEq .. ▸ (Option.some.inj hi)
      exact h2.symm
    · have hiy : i ≠ yid := by
        intro hc
        subst hc
        rw [hy] at h₀
        obtain ⟨h1, _⟩ := Prod.mk.injEq .. ▸ (Option.some.inj h₀)
        exact hne h1.symm
      rw [markDelivered_ne ys yid i hiy] at hi
      exact hw.terminal_delivered _ _ _ hi q hold hterm
  · intro pid' q hlq
    rcases mapLookup_insert_inv hlq with ⟨rfl, rfl⟩ | ⟨_, hold⟩
    · rw [hp's]
      exact hw.nodup_subs _ _ hl
    · exact hw.nodup_subs _ _ hold

/-- Any callback delivery (success or timeout) for a live yield preserves
the invariant. -/
theorem inv_return_deliver {c : CoordinatorContract} {ys : List (Nat × YieldStatus)}
    {yid pid : Nat} {st₀ : YieldStatus} (hw : SysInv c ys)
    (hy : ys[yid]? = some (pid, st₀)) (resp : Option String) :
    SysInv (return_coordination_result c pid resp) (markDelivered ys yid) := by
  cases resp with
  | some r =>
    unfold return_coordination_result
    cases hl : mapLookup c.proposals pid with
    | none => exact inv_markDelivered hw yid
    | some p => exact inv_deliver_prop hw hy hl rfl rfl
  | none =>
    unfold return_coordination_result
    cases hl : mapLookup c.proposals pid with
    | none => exact inv_markDelivered hw yid
    | some p => exact inv_deliver_prop hw hy hl rfl rfl

theorem inv_clear {c c' : CoordinatorContract} {ys : List (Nat × YieldStatus)}
    {caller : String} {pid : Nat} (hw : SysInv c ys)
    (h : clear_proposal c caller pid = Except.ok c') : SysInv c' ys := by
  obtain ⟨hcur, hprops⟩ := clear_proposal_ok h
  refine ⟨?_, ?_, hw.pid_inj, ?_, ?_, ?_, ?_⟩
  · intro pid' q hl
    rw [hprops] at hl
    rw [hcur]
    exact hw.prop_bound _ _ (mapLookup_remove_inv hl).2
  · intro i pid' st hi
    rw [hcur]
    exact hw.yield_pid_bound _ _ _ hi
  · intro pid' q hl
    rw [hprops] at hl
    exact hw.prop_yield _ _ (mapLookup_remove_inv hl).2
  · intro i pid' s hi q hl
    rw [hprops] at hl
    exact hw.resumed_wc _ _ _ hi q (mapLookup_remove_inv hl).2
  · intro i pid' st hi q hl hterm
    rw [hprops] at hl
    exact hw.terminal_delivered _ _ _ hi q (mapLookup_remove_inv hl).2 hterm
  · intro pid' q hl
    rw [hprops] at hl
    exact hw.nodup_subs _ _ (mapLookup_remove_inv hl).2

/-- One step preserves the invariant. -/
theorem inv_step {w w' : World} (hw : SysInv w.contract w.yields) (hs : Step w w') :
    SysInv w'.contract w'.yields := by
  cases hs with
  | set_manifesto caller text =>
    cases hres : set_manifesto w.contract caller text with
    | error e => simpa [applyE] using hw
    | ok c' =>
      obtain ⟨hp, hc⟩ := set_manifesto_ok hres
      exact inv_frame hw hp hc
  | start caller cfg now =>
    unfold applyStart
    cases hres : start_coordination w.contract caller cfg now w.yields.length with
    | error e => simpa using hw
    | ok res =>
      obtain ⟨c', pid⟩ := res
      exact inv_start hw hres
  | record caller now pid subs =>
    cases hres : record_worker_submissions w.contract caller now pid subs with
    | error e => simpa [applyE] using hw
    | ok c' =>
      simp only [applyE]
      exact inv_record hw hres
  | resume caller pid result ch rh =>
    unfold applyResume
    cases hres : coordinator_resume w.contract caller pid result ch rh with
    | error e => simpa using hw
    | ok res =>
      obtain ⟨c', yid, payload⟩ := res
      exact inv_resume hw hres
  | deliverOk yid =>
    unfold applyDeliverOk
    cases hres : w.yields[yid]? with
    | none => simpa using hw
    | some e =>
      obtain ⟨pid, st⟩ := e
      cases st with
      | pending => simpa using hw
      | resumed payload => exact inv_return_deliver hw hres (some payload)
      | delivered => simpa using hw
  | deliverTimeout yid =>
    unfold applyDeliverTimeout
    cases hres : w.yields[yid]? with
    | none => simpa using hw
    | some e =>
      obtain ⟨pid, st⟩ := e
      cases st with
      | pending => exact inv_return_deliver hw hres none
      | resumed payload => simpa using hw
      | delivered => simpa using hw
  | approve caller ch =>
    cases hres : approve_codehash w.contract caller ch with
    | error e => simpa [applyE] using hw
    | ok c' =>
      obtain ⟨hp, hc⟩ := approve_codehash_ok hres
      exact inv_frame hw hp hc
  | registerCoordinator caller cs ch =>
    cases hres : register_coordinator w.contract caller cs ch with
    | error e => simpa [applyE] using hw
    | ok c' =>
      obtain ⟨hp, hc⟩ := register_coordinator_ok hres
      exact inv_frame hw hp hc
  | removeCodehash caller ch =>
    cases hres : remove_codehash w.contract caller ch with
    | error e => simpa [applyE] using hw
    | ok c' =>
      obtain ⟨hp, hc⟩ := remove_codehash_ok hres
      exact inv_frame hw hp hc
  | clearProposal caller pid =>
    cases hres : clear_proposal w.contract caller pid with
    | error e => simpa [applyE] using hw
    | ok c' =>
      simp only [applyE]
      exact inv_clear hw hres
  | registerWorker caller wid acct now =>
    cases hres : register_worker w.contract caller wid acct now with
    | error e => simpa [applyE] using hw
    | ok c' =>
      obtain ⟨hp, hc⟩ := register_worker_ok hres
      exact inv_frame hw hp hc
  | removeWorker caller wid =>
    cases hres : remove_worker w.contract caller wid with
    | error e => simpa [applyE] using hw
    | ok c' =>
      obtain ⟨hp, hc⟩ := remove_worker_ok hres
      exact inv_frame hw hp hc
  | deactivateWorker caller wid =>
    cases hres : deactivate_worker w.contract caller wid with
    | error e => simpa [applyE] using hw
    | ok c' =>
      obtain ⟨hp, hc⟩ := deactivate_worker_ok hres
      exact inv_frame hw hp hc
  | activateWorker caller wid =>
    cases hres : activate_worker w.contract caller wid with
    | error e => simpa [applyE] using hw
    | ok c' =>
      obtain ⟨hp, hc⟩ := activate_worker_ok hres
      exact inv_frame hw hp hc
  | transferOwnership caller newOwner =>
    cases hres : transfer_ownership w.contract caller newOwner with
    | error e => simpa [applyE] using hw
    | ok c' =>
      obtain ⟨hp, hc⟩ := transfer_ownership_ok hres
      exact inv_frame hw hp hc

/-- Every reachable world satisfies the invariant. -/
theorem reachable_inv {o : String} {w : World} (h : Reachable o w) :
    SysInv w.contract w.yields := by
  induction h with
  | init =>
    refine ⟨?_, ?_, ?_, ?_, ?_, ?_, ?_⟩ <;> intro i
    · intro p h
      cases h
    · intro pid st h
      simp [initWorld] at h
    · intro j pi pj si sj hi
      simp [initWorld] at hi
    · intro p h
      cases h
    · intro pid s h
      simp [initWorld] at h
    · intro pid st h
      simp [initWorld] at h
    · intro p h
      cases h
  | step hr hs ih => exact inv_step ih hs

/-! ### A concrete executable run used by witnesses and counterexamples -/

def exW0 : World := initWorld "owner"

def exW1 : World := applyE exW0 (set_manifesto exW0.contract "owner" "manifesto")

def exW2 : World := applyStart exW1 "alice" "cfg-A" 5

def exW3 : World := applyE exW2 (approve_codehash exW2.contract "owner" "ch-1")

def exW4 : World := applyE exW3 (register_coordinator exW3.contract "owner" "cs-1" "ch-1")

def exW5 : World := applyE exW4 (register_worker exW4.contract "owner" "w1" none 6)

def exW6 : World :=
  applyE exW5 (record_worker_submissions exW5.contract "owner" 7 1 [⟨"w1", "r1"⟩])

theorem exW2_reachable : Reachable "owner" exW2 :=
  Reachable.step
    (Reachable.step Reachable.init (Step.set_manifesto exW0 "owner" "manifesto"))
    (Step.start exW1 "alice" "cfg-A" 5)

theorem exW5_reachable : Reachable "owner" exW5 :=
  Reachable.step
    (Reachable.step
      (Reachable.step exW2_reachable (Step.approve exW2 "owner" "ch-1"))
      (Step.registerCoordinator exW3 "owner" "cs-1" "ch-1"))
    (Step.registerWorker exW4 "owner" "w1" none 6)

theorem exW6_reachable : Reachable "owner" exW6 :=
  Reachable.step exW5_reachable (Step.record exW5 "owner" 7 1 [⟨"w1", "r1"⟩])

/-- The proposal stored in `exW5` (still `Created`). -/
def exP5 : Proposal :=
  ⟨0, "cfg-A", hash "cfg-A", 5, "alice", ProposalState.Created, [], none⟩

/-- The proposal stored in `exW6` (after one recorded submission). -/
def exP6 : Proposal :=
  ⟨0, "cfg-A", hash "cfg-A", 5, "alice", ProposalState.WorkersCompleted,
   [⟨"w1", "r1", 7⟩], none⟩

/-! ### Claim theorems -/

theorem lookup_funct {κ α : Type} [DecidableEq κ] {m : List (κ × α)} {k : κ} {p q : α}
    (h1 : mapLookup m k = some p) (h2 : mapLookup m k = some q) : q = p :=
  (Option.some.inj (h1.symm.trans h2)).symm

/-- C1: in every reachable state, every proposal's `worker_submissions`
list contains at most one entry per `worker_id` (nullifier uniqueness),
under any sequence of contract calls (valid or rejected — rejected calls
roll back atomically) and host deliveries. -/
theorem C1_nullifier_uniqueness {o : String} {w : World} (h : Reachable o w) :
    ∀ pid p, mapLookup w.contract.proposals pid = some p →
      (p.worker_submissions.map (fun s => s.worker_id)).Nodup :=
  (reachable_inv h).nodup_subs

theorem C1_witness :
    Reachable "owner" exW6 ∧
    (∀ pid p, mapLookup exW6.contract.proposals pid = some p →
      (p.worker_submissions.map (fun s => s.worker_id)).Nodup) :=
  ⟨exW6_reachable, C1_nullifier_uniqueness exW6_reachable⟩

/-- C2 as stated is false: the host may deliver a timeout callback while a
proposal is still in `Created` (no worker submissions recorded yet), and
`return_coordination_result`'s `Err` branch sets `TimedOut` without any
state-tag check, so the transition `Created → TimedOut` is observed on a
reachable world. -/
theorem C2_counterexample :
    Reachable "owner" exW2 ∧
    Step exW2 (applyDeliverTimeout exW2 0) ∧
    Option.map Proposal.state (mapLookup exW2.contract.proposals 1) =
      some ProposalState.Created ∧
    Option.map Proposal.state
        (mapLookup (applyDeliverTimeout exW2 0).contract.proposals 1) =
      some ProposalState.TimedOut :=
  ⟨exW2_reachable, Step.deliverTimeout exW2 0, by decide, by decide⟩

/-- C2 amended: along any single step from a reachable world, a proposal's
state either stays the same or moves along
`Created → WorkersCompleted → (Finalized or TimedOut)` — with the one
additional host-driven edge `Created → TimedOut`, taken when the
continuation times out before any submissions were recorded. -/
theorem C2_amended {o : String} {w w' : World} (hr : Reachable o w) (hs : Step w w')
    (pid : Nat) (p p' : Proposal)
    (hp : mapLookup w.contract.proposals pid = some p)
    (hp' : mapLookup w'.contract.proposals pid = some p') :
    p'.state = p.state ∨
      (p.state = ProposalState.Created ∧ p'.state = ProposalState.WorkersCompleted) ∨
      (p.state = ProposalState.WorkersCompleted ∧ p'.state = ProposalState.Finalized) ∨
      (p.state = ProposalState.WorkersCompleted ∧ p'.state = ProposalState.TimedOut) ∨
      (p.state = ProposalState.Created ∧ p'.state = ProposalState.TimedOut) := by
  have hw := reachable_inv hr
  cases hs with
  | set_manifesto caller text =>
    revert hp'
    cases hres : set_manifesto w.contract caller text with
    | error e =>
      intro hp'
      exact Or.inl (by rw [lookup_funct hp hp'])
    | ok c2 =>
      intro hp'
      obtain ⟨hpp, _⟩ := set_manifesto_ok hres
      dsimp only [applyE] at hp'
      rw [hpp] at hp'
      exact Or.inl (by rw [lookup_funct hp hp'])
  | start caller cfg now =>
    revert hp'
    unfold applyStart
    cases hres : start_coordination w.contract caller cfg now w.yields.length with
    | error e =>
      intro hp'
      exact Or.inl (by rw [lookup_funct hp hp'])
    | ok res =>
      obtain ⟨c2, npid⟩ := res
      intro hp'
      obtain ⟨hnp, hcur, hprops⟩ := start_coordination_ok hres
      dsimp only at hp'
      rw [hprops] at hp'
      rcases mapLookup_insert_inv hp' with ⟨rfl, rfl⟩ | ⟨hne, hold⟩
      · exfalso
        have := hw.prop_bound _ _ hp
        omega
      · exact Or.inl (by rw [lookup_funct hp hold])
  | record caller now rpid subs =>
    revert hp'
    cases hres : record_worker_submissions w.contract caller now rpid subs with
    | error e =>
      intro hp'
      exact Or.inl (by rw [lookup_funct hp hp'])
    | ok c2 =>
      intro hp'
      obtain ⟨q, subs', hlq, hqstate, hloop, hcur, hprops⟩ :=
        record_worker_submissions_ok hres
      dsimp only [applyE] at hp'
      rw [hprops] at hp'
      rcases mapLookup_insert_inv hp' with ⟨rfl, rfl⟩ | ⟨hne, hold⟩
      · have hpq : p = q := Option.some.inj (hp.symm.trans hlq)
        refine Or.inr (Or.inl ⟨?_, rfl⟩)
        rw [hpq]
        exact hqstate
      · exact Or.inl (by rw [lookup_funct hp hold])
  | resume caller rpid result ch rh =>
    revert hp'
    unfold applyResume
    cases hres : coordinator_resume w.contract caller rpid result ch rh with
    | error e =>
      intro hp'
      exact Or.inl (by rw [lookup_funct hp hp'])
    | ok res =>
      obtain ⟨c2, yid, payload⟩ := res
      intro hp'
      obtain ⟨rfl, _⟩ := coordinator_resume_ok hres
      dsimp only at hp'
      exact Or.inl (by rw [lookup_funct hp hp'])
  | deliverOk yid =>
    revert hp'
    unfold applyDeliverOk
    cases hres : w.yields[yid]? with
    | none =>
      intro hp'
      exact Or.inl (by rw [lookup_funct hp hp'])
    | some e =>
      obtain ⟨dpid, st⟩ := e
      cases st with
      | pending =>
        intro hp'
        exact Or.inl (by rw [lookup_funct hp hp'])
      | delivered =>
        intro hp'
        exact Or.inl (by rw [lookup_funct hp hp'])
      | resumed payload =>
        intro hp'
        dsimp only at hp'
        revert hp'
        unfold return_coordination_result
        cases hl : mapLookup w.contract.proposals dpid with
        | none =>
          intro hp'
          exact Or.inl (by rw [lookup_funct hp hp'])
        | some q =>
          intro hp'
          dsimp only at hp'
          rcases mapLookup_insert_inv hp' with ⟨rfl, rfl⟩ | ⟨hne, hold⟩
          · have hpq : p = q := Option.some.inj (hp.symm.trans hl)
            have hwc : q.state = ProposalState.WorkersCompleted :=
              hw.resumed_wc _ _ _ hres q hl
            refine Or.inr (Or.inr (Or.inl ⟨?_, rfl⟩))
            rw [hpq]
            exact hwc
          · exact Or.inl (by rw [lookup_funct hp hold])
  | deliverTimeout yid =>
    revert hp'
    unfold applyDeliverTimeout
    cases hres : w.yields[yid]? with
    | none =>
      intro hp'
      exact Or.inl (by rw [lookup_funct hp hp'])
    | some e =>
      obtain ⟨dpid, st⟩ := e
      cases st with
      | resumed payload =>
        intro hp'
        exact Or.inl (by rw [lookup_funct hp hp'])
      | delivered =>
        intro hp'
        exact Or.inl (by rw [lookup_funct hp hp'])
      | pending =>
        intro hp'
        dsimp only at hp'
        revert hp'
        unfold return_coordination_result
        cases hl : mapLookup w.contract.proposals dpid with
        | none =>
          intro hp'
          exact Or.inl (by rw [lookup_funct hp hp'])
        | some q =>
          intro hp'
          dsimp only at hp'
          rcases mapLookup_insert_inv hp' with ⟨rfl, rfl⟩ | ⟨hne, hold⟩
          · have hpq : p = q := Option.some.inj (hp.symm.trans hl)
            cases hqs : q.state with
            | Created =>
              refine Or.inr (Or.inr (Or.inr (Or.inr ⟨?_, rfl⟩)))
              rw [hpq]
              exact hqs
            | WorkersCompleted =>
              refine Or.inr (Or.inr (Or.inr (Or.inl ⟨?_, rfl⟩)))
              rw [hpq]
              exact hqs
            | Finalized =>
              exfalso
              have := hw.terminal_delivered _ _ _ hres q hl (Or.inl hqs)
              cases this
            | TimedOut =>
              exfalso
              have := hw.terminal_delivered _ _ _ hres q hl (Or.inr hqs)
              cases this
          · exact Or.inl (by rw [lookup_funct hp hold])
  | approve caller ch =>
    revert hp'
    cases hres : approve_codehash w.contract caller ch with
    | error e =>
      intro hp'
      exact Or.inl (by rw [lookup_funct hp hp'])
    | ok c2 =>
      intro hp'
      obtain ⟨hpp, _⟩ := approve_codehash_ok hres
      dsimp only [applyE] at hp'
      rw [hpp] at hp'
      exact Or.inl (by rw [lookup_funct hp hp'])
  | registerCoordinator caller cs ch =>
    revert hp'
    cases hres : register_coordinator w.contract caller cs ch with
    | error e =>
      intro hp'
      exact Or.inl (by rw [lookup_funct hp hp'])
    | ok c2 =>
      intro hp'
      obtain ⟨hpp, _⟩ := register_coordinator_ok hres
      dsimp only [applyE] at hp'
      rw [hpp] at hp'
      exact Or.inl (by rw [lookup_funct hp hp'])
  | removeCodehash caller ch =>
    revert hp'
    cases hres : remove_codehash w.contract caller ch with
    | error e =>
      intro hp'
      exact Or.inl (by rw [lookup_funct hp hp'])
    | ok c2 =>
      intro hp'
      obtain ⟨hpp, _⟩ := remove_codehash_ok hres
      dsimp only [applyE] at hp'
      rw [hpp] at hp'
      exact Or.inl (by rw [lookup_funct hp hp'])
  | clearProposal caller cpid =>
    revert hp'
    cases hres : clear_proposal w.contract caller cpid with
    | error e =>
      intro hp'
      exact Or.inl (by rw [lookup_funct hp hp'])
    | ok c2 =>
      intro hp'
      obtain ⟨hcur, hprops⟩ := clear_proposal_ok hres
      dsimp only [applyE] at hp'
      rw [hprops] at hp'
      exact Or.inl (by rw [lookup_funct hp (mapLookup_remove_inv hp').2])
  | registerWorker caller wid acct now =>
    revert hp'
    cases hres : register_worker w.contract caller wid acct now with
    | error e =>
      intro hp'
      exact Or.inl (by rw [lookup_funct hp hp'])
    | ok c2 =>
      intro hp'
      obtain ⟨hpp, _⟩ := register_worker_ok hres
      dsimp only [applyE] at hp'
      rw [hpp] at hp'
      exact Or.inl (by rw [lookup_funct hp hp'])
  | removeWorker caller wid =>
    revert hp'
    cases hres : remove_worker w.contract caller wid with
    | error e =>
      intro hp'
      exact Or.inl (by rw [lookup_funct hp hp'])
    | ok c2 =>
      intro hp'
      obtain ⟨hpp, _⟩ := remove_worker_ok hres
      dsimp only [applyE] at hp'
      rw [hpp] at hp'
      exact Or.inl (by rw [lookup_funct hp hp'])
  | deactivateWorker caller wid =>
    revert hp'
    cases hres : deactivate_worker w.contract caller wid with
    | error e =>
      intro hp'
      exact Or.inl (by rw [lookup_funct hp hp'])
    | ok c2 =>
      intro hp'
      obtain ⟨hpp, _⟩ := deactivate_worker_ok hres
      dsimp only [applyE] at hp'
      rw [hpp] at hp'
      exact Or.inl (by rw [lookup_funct hp hp'])
  | activateWorker caller wid =>
    revert hp'
    cases hres : activate_worker w.contract caller wid with
    | error e =>
      intro hp'
      exact Or.inl (by rw [lookup_funct hp hp'])
    | ok c2 =>
      intro hp'
      obtain ⟨hpp, _⟩ := activate_worker_ok hres
      dsimp only [applyE] at hp'
      rw [hpp] at hp'
      exact Or.inl (by rw [lookup_funct hp hp'])
  | transferOwnership caller newOwner =>
    revert hp'
    cases hres : transfer_ownership w.contract caller newOwner with
    | error e =>
      intro hp'
      exact Or.inl (by rw [lookup_funct hp hp'])
    | ok c2 =>
      intro hp'
      obtain ⟨hpp, _⟩ := transfer_ownership_ok hres
      dsimp only [applyE] at hp'
      rw [hpp] at hp'
      exact Or.inl (by rw [lookup_funct hp hp'])

theorem C2_amended_witness :
    exP6.state = exP5.state ∨
      (exP5.state = ProposalState.Created ∧ exP6.state = ProposalState.WorkersCompleted) ∨
      (exP5.state = ProposalState.WorkersCompleted ∧ exP6.state = ProposalState.Finalized) ∨
      (exP5.state = ProposalState.WorkersCompleted ∧ exP6.state = ProposalState.TimedOut) ∨
      (exP5.state = ProposalState.Created ∧ exP6.state = ProposalState.TimedOut) :=
  C2_amended exW5_reachable (Step.record exW5 "owner" 7 1 [⟨"w1", "r1"⟩]) 1 exP5 exP6
    (by decide) (by decide)

theorem record_ok_gate {c c' : CoordinatorContract} {caller : String} {now pid : Nat}
    {subs : List WorkerSubmissionInput}
    (h : record_worker_submissions c caller now pid subs = Except.ok c') :
    require_approved_codehash c caller = Except.ok () := by
  unfold record_worker_submissions at h
  split at h
  · cases h
  next u hg =>
    cases u
    exact hg

theorem record_error_of_gate {c : CoordinatorContract} {caller e : String}
    (hg : require_approved_codehash c caller = Except.error e)
    (now pid : Nat) (subs : List WorkerSubmissionInput) :
    record_worker_submissions c caller now pid subs = Except.error e := by
  unfold record_worker_submissions
  rw [hg]

theorem resume_error_of_gate {c : CoordinatorContract} {caller e : String}
    (hg : require_approved_codehash c caller = Except.error e)
    (pid : Nat) (r ch rh : String) :
    coordinator_resume c caller pid r ch rh = Except.error e := by
  unfold coordinator_resume
  rw [hg]

theorem gate_error_of_unapproved {c : CoordinatorContract} {caller : String} {wkr : Worker}
    (hl : mapLookup c.coordinator_by_account_id caller = some wkr)
    (hfc : c.approved_codehashes.contains wkr.codehash = false) :
    require_approved_codehash c caller =
      Except.error "Coordinator codehash is no longer approved" := by
  unfold require_approved_codehash
  rw [hl]
  dsimp only
  rw [if_neg (fun hc => by rw [hfc] at hc; cases hc)]

/-- C3: record_worker_submissions is atomic — under any of the listed
precondition violations (gate failure, unknown proposal, wrong state, an
inactive/unregistered worker in the batch, a duplicate worker within the
batch, or a worker already present in the proposal's submission list) the
call returns an error and the world is unchanged (NEAR rolls back panicked
calls; `applyE` keeps the pre-state on error). -/
theorem C3_record_atomic (w : World) (caller : String) (now pid : Nat)
    (subs : List WorkerSubmissionInput)
    (hviol : (∃ e, require_approved_codehash w.contract caller = Except.error e) ∨
      mapLookup w.contract.proposals pid = none ∨
      (∃ p, mapLookup w.contract.proposals pid = some p ∧
        p.state ≠ ProposalState.Created) ∨
      (∃ s ∈ subs, workerActive w.contract.registered_workers s.worker_id = false) ∨
      ¬ (subs.map (fun s => s.worker_id)).Nodup ∨
      (∃ s ∈ subs, ∃ p, mapLookup w.contract.proposals pid = some p ∧
        s.worker_id ∈ p.worker_submissions.map (fun t => t.worker_id))) :
    (∃ e, record_worker_submissions w.contract caller now pid subs = Except.error e) ∧
      applyE w (record_worker_submissions w.contract caller now pid subs) = w := by
  cases hres : record_worker_submissions w.contract caller now pid subs with
  | error e => exact ⟨⟨e, rfl⟩, rfl⟩
  | ok c2 =>
    exfalso
    obtain ⟨q, subs', hlq, hqstate, hloop, _, _⟩ := record_worker_submissions_ok hres
    have hgate := record_ok_gate hres
    obtain ⟨hact, hdisj, hnodup, _⟩ := recordLoop_ok_inv hloop
    rcases hviol with ⟨e, hg⟩ | hnone | ⟨p, hp, hps⟩ | ⟨s, hs, hinact⟩ | hnd |
      ⟨s, hs, p, hp, hmem⟩
    · rw [hgate] at hg
      cases hg
    · rw [hlq] at hnone
      cases hnone
    · have hpq : p = q := lookup_funct hlq hp
      rw [hpq] at hps
      exact hps hqstate
    · have := hact s hs
      rw [hinact] at this
      cases this
    · exact hnd hnodup
    · have hpq : p = q := lookup_funct hlq hp
      rcases List.mem_map.mp hmem with ⟨a, ha, haid⟩
      rw [hpq] at ha
      exact hdisj s hs a ha haid

theorem C3_witness :
    (∃ e, record_worker_submissions exW5.contract "owner" 7 1
      [⟨"w1", "r1"⟩, ⟨"w1", "r2"⟩] = Except.error e) ∧
      applyE exW5 (record_worker_submissions exW5.contract "owner" 7 1
        [⟨"w1", "r1"⟩, ⟨"w1", "r2"⟩]) = exW5 :=
  C3_record_atomic exW5 "owner" 7 1 [⟨"w1", "r1"⟩, ⟨"w1", "r2"⟩]
    (Or.inr (Or.inr (Or.inr (Or.inr (Or.inl (by decide))))))

/-- C4: for a proposal in `WorkersCompleted`, coordinator_resume fails
whenever the supplied config-fingerprint claim differs from the stored
`config_hash` (the comparison is on the stored hash, so it fails even when
the underlying config is unchanged but the claim is wrong), fails whenever
the hash the contract computes over `aggregated_result` differs from the
supplied result-fingerprint claim, and (given the access-control gate
passes) resumes the continuation exactly when both equalities hold. -/
theorem C4_resume_fingerprint_checks (c : CoordinatorContract) (caller : String)
    (pid : Nat) (p : Proposal) (result ch rh : String)
    (hp : mapLookup c.proposals pid = some p)
    (hstate : p.state = ProposalState.WorkersCompleted) :
    (ch ≠ p.config_hash →
      ∃ e, coordinator_resume c caller pid result ch rh = Except.error e) ∧
      (hash result ≠ rh →
        ∃ e, coordinator_resume c caller pid result ch rh = Except.error e) ∧
      (require_approved_codehash c caller = Except.ok () → ch = p.config_hash →
        hash result = rh →
        coordinator_resume c caller pid result ch rh =
          Except.ok (c, p.yield_id, result)) := by
  unfold coordinator_resume
  cases hg : require_approved_codehash c caller with
  | error e =>
    exact ⟨fun _ => ⟨e, rfl⟩, fun _ => ⟨e, rfl⟩, fun hgate _ _ => by cases hgate⟩
  | ok u =>
    cases u
    simp only [hp]
    rw [if_pos hstate]
    refine ⟨?_, ?_, ?_⟩
    · intro hne
      rw [if_neg (fun hc => hne hc.symm)]
      exact ⟨_, rfl⟩
    · intro hne
      by_cases hc2 : p.config_hash = ch
      · rw [if_pos hc2, if_neg hne]
        exact ⟨_, rfl⟩
      · rw [if_neg hc2]
        exact ⟨_, rfl⟩
    · intro _ hceq hheq
      rw [if_pos hceq.symm, if_pos hheq]

theorem C4_witness :
    (∃ e, coordinator_resume exW6.contract "owner" 1 "final" "bogus" (hash "final") =
      Except.error e) ∧
      (∃ e, coordinator_resume exW6.contract "owner" 1 "final" (hash "cfg-A") "bogus" =
        Except.error e) ∧
      coordinator_resume exW6.contract "owner" 1 "final" (hash "cfg-A") (hash "final") =
        Except.ok (exW6.contract, 0, "final") := by
  refine ⟨?_, ?_, ?_⟩
  · exact (C4_resume_fingerprint_checks exW6.contract "owner" 1 exP6 "final" "bogus"
      (hash "final") (by decide) (by decide)).1 (by decide)
  · exact (C4_resume_fingerprint_checks exW6.contract "owner" 1 exP6 "final"
      (hash "cfg-A") "bogus" (by decide) (by decide)).2.1 (by decide)
  · exact (C4_resume_fingerprint_checks exW6.contract "owner" 1 exP6 "final"
      (hash "cfg-A") (hash "final") (by decide) (by decide)).2.2 rfl (by decide) rfl

theorem remove_codehash_ok_full {c c' : CoordinatorContract} {caller ch : String}
    (h : remove_codehash c caller ch = Except.ok c') :
    c' = { c with approved_codehashes :=
      c.approved_codehashes.filter (fun x => x ≠ ch) } := by
  unfold remove_codehash at h
  split at h
  · cases h
  · cases h
    rfl

theorem contains_filter_ne (l : List String) (ch : String) :
    (l.filter (fun x => x ≠ ch)).contains ch = false := by
  induction l with
  | nil => rfl
  | cons a rest ih =>
    by_cases ha : a = ch
    · subst ha
      simp [List.filter_cons, ih]
    · simp [List.filter_cons, ha, ih, Ne.symm ha]

/-- C5: revoking a codehash is immediate and global — `remove_codehash`
leaves every per-caller binding untouched and removes the codehash from the
approved set, after which every caller bound to it fails the access-control
gate, and hence every `record_worker_submissions` and `coordinator_resume`
call by such a caller fails; the gate depends only on current membership of
the bound codehash in the approved set (last conjunct), so the lock-out
lasts exactly until the codehash is approved again. -/
theorem C5_revocation_global (c c' : CoordinatorContract) (ch : String)
    (h : remove_codehash c c.owner ch = Except.ok c') :
    c'.coordinator_by_account_id = c.coordinator_by_account_id ∧
      c'.approved_codehashes.contains ch = false ∧
      (∀ caller wkr, mapLookup c'.coordinator_by_account_id caller = some wkr →
        wkr.codehash = ch →
        (∃ e, require_approved_codehash c' caller = Except.error e) ∧
          (∀ now pid subs, ∃ e,
            record_worker_submissions c' caller now pid subs = Except.error e) ∧
          (∀ pid r ch2 rh, ∃ e,
            coordinator_resume c' caller pid r ch2 rh = Except.error e)) ∧
      (∀ (c2 : CoordinatorContract) (caller : String) (wkr : Worker),
        mapLookup c2.coordinator_by_account_id caller = some wkr →
        c2.approved_codehashes.contains wkr.codehash = false →
        ∃ e, require_approved_codehash c2 caller = Except.error e) := by
  have hc' := remove_codehash_ok_full h
  subst hc'
  refine ⟨rfl, contains_filter_ne _ _, ?_, ?_⟩
  · intro caller wkr hlw hcodeh
    have hfc : (c.approved_codehashes.filter (fun x => x ≠ ch)).contains wkr.codehash
        = false := by
      rw [hcodeh]
      exact contains_filter_ne _ _
    have hge := gate_error_of_unapproved hlw hfc
    exact ⟨⟨_, hge⟩,
      fun now pid subs => ⟨_, record_error_of_gate hge now pid subs⟩,
      fun pid r ch2 rh => ⟨_, resume_error_of_gate hge pid r ch2 rh⟩⟩
  · intro c2 caller wkr hl hfc
    exact ⟨_, gate_error_of_unapproved hl hfc⟩

def exC5 : CoordinatorContract :=
  { owner := "owner"
    approved_codehashes := ["ch-1"]
    coordinator_by_account_id := [("alice", ⟨"cs", "ch-1"⟩)]
    current_proposal_id := 0
    proposals := []
    manifesto := none
    registered_workers := [] }

theorem C5_witness :
    (∃ c', remove_codehash exC5 exC5.owner "ch-1" = Except.ok c' ∧
      c'.coordinator_by_account_id = exC5.coordinator_by_account_id ∧
      c'.approved_codehashes.contains "ch-1" = false ∧
      (∃ e, require_approved_codehash c' "alice" = Except.error e)) := by
  refine ⟨_, rfl, ?_⟩
  have h := C5_revocation_global exC5 _ "ch-1" rfl
  exact ⟨h.1, h.2.1, (h.2.2.1 "alice" ⟨"cs", "ch-1"⟩ rfl rfl).1⟩

def exC6 : CoordinatorContract :=
  { owner := "owner"
    approved_codehashes := ["ch-1"]
    coordinator_by_account_id := []
    current_proposal_id := 0
    proposals := []
    manifesto := none
    registered_workers := [] }

/-- C6 fails as stated: `register_coordinator` calls `require_owner` first
(lib.rs:507), so a non-owner caller is rejected even though the supplied
codehash is in the approved set — registration is not open to any
caller. -/
theorem C6_counterexample :
    exC6.approved_codehashes.contains "ch-1" = true ∧
      "alice" ≠ exC6.owner ∧
      (∃ e, register_coordinator exC6 "alice" "cs" "ch-1" = Except.error e) :=
  ⟨rfl, by decide, ⟨_, rfl⟩⟩

theorem register_coordinator_eq (c : CoordinatorContract) (caller cs ch : String) :
    register_coordinator c caller cs ch =
      if caller = c.owner then
        (if c.approved_codehashes.contains ch then
          Except.ok { c with coordinator_by_account_id := mapInsert c.coordinator_by_account_id caller ⟨cs, ch⟩ }
        else Except.error "Codehash not approved. Owner must approve_codehash first.")
      else Except.error "Only owner can call this function" := by
  by_cases ho : caller = c.owner <;>
    simp [register_coordinator, require_owner, ho]

/-- C6 amended: `register_coordinator` succeeds if and only if the caller
is the owner AND the supplied codehash is approved at registration time;
on success it binds the caller's identity to the `⟨checksum, codehash⟩`
pair, leaving every other caller's binding unchanged. -/
theorem C6_amended (c : CoordinatorContract) (caller cs ch : String) :
    ((∃ c', register_coordinator c caller cs ch = Except.ok c') ↔
      (caller = c.owner ∧ c.approved_codehashes.contains ch = true)) ∧
      (∀ c', register_coordinator c caller cs ch = Except.ok c' →
        mapLookup c'.coordinator_by_account_id caller = some ⟨cs, ch⟩ ∧
        ∀ other, other ≠ caller →
          mapLookup c'.coordinator_by_account_id other =
            mapLookup c.coordinator_by_account_id other) := by
  constructor
  · constructor
    · rintro ⟨c', hc'⟩
      rw [register_coordinator_eq] at hc'
      by_cases ho : caller = c.owner
      · rw [if_pos ho] at hc'
        by_cases hch : c.approved_codehashes.contains ch = true
        · exact ⟨ho, hch⟩
        · rw [if_neg (fun hc => hch hc)] at hc'
          cases hc'
      · rw [if_neg ho] at hc'
        cases hc'
    · rintro ⟨ho, hch⟩
      rw [register_coordinator_eq, if_pos ho, if_pos hch]
      exact ⟨_, rfl⟩
  · intro c' hc'
    rw [register_coordinator_eq] at hc'
    by_cases ho : caller = c.owner
    · by_cases hch : c.approved_codehashes.contains ch = true
      · rw [if_pos ho, if_pos hch] at hc'
        have heq := Except.ok.inj hc'
        subst heq
        constructor
        · exact mapLookup_insert_self _ _ _
        · intro other hne
          exact mapLookup_insert_ne _ _ _ _ hne
      · rw [if_pos ho, if_neg (fun hc => hch hc)] at hc'
        cases hc'
    · rw [if_neg ho] at hc'
      cases hc'

theorem C6_amended_witness :
    ∃ c', register_coordinator exC6 "owner" "cs" "ch-1" = Except.ok c' :=
  (C6_amended exC6 "owner" "cs" "ch-1").1.mpr ⟨rfl, rfl⟩

/-- C7 fails as stated: `clear_proposal` uses `IterableMap::remove`
(lib.rs:536), which is a silent no-op on a missing key — a purge of an
already-purged (or never existing) id succeeds silently instead of
failing loudly. -/
theorem C7_counterexample :
    mapLookup exC6.proposals 5 = none ∧
      clear_proposal exC6 "owner" 5 = Except.ok exC6 :=
  ⟨rfl, rfl⟩

/-- C7 amended: `clear_proposal` by the owner always succeeds — on a
missing id it is a silent no-op, and on an existing proposal it removes it
regardless of its lifecycle state, leaving all other proposals intact. -/
theorem C7_amended (c : CoordinatorContract) (caller : String) (pid : Nat)
    (hown : caller = c.owner) :
    ∃ c', clear_proposal c caller pid = Except.ok c' ∧
      mapLookup c'.proposals pid = none ∧
      (∀ q, q ≠ pid → mapLookup c'.proposals q = mapLookup c.proposals q) := by
  refine ⟨{ c with proposals := mapRemove c.proposals pid }, ?_, ?_, ?_⟩
  · unfold clear_proposal require_owner
    rw [if_pos hown]
  · exact mapLookup_remove_self _ _
  · intro q hq
    exact mapLookup_remove_ne _ _ _ hq

theorem C7_witness :
    ("owner" = exW2.contract.owner) ∧
      (∃ c', clear_proposal exW2.contract "owner" 1 = Except.ok c' ∧
        mapLookup c'.proposals 1 = none ∧
        (∀ q, q ≠ 1 → mapLookup c'.proposals q = mapLookup exW2.contract.proposals q)) :=
  ⟨rfl, C7_amended exW2.contract "owner" 1 rfl⟩

/-- C8: `coordinator_resume` never mutates the proposal store — whether it
succeeds or fails, the contract state after the call equals the state
before it (every proposal field of every proposal is unchanged); on
success the state returned alongside the resume action is the input state
itself.  Proposal mutation happens only in the asynchronous finalize
callback. -/
theorem C8_resume_no_mutation (w : World) (caller : String) (pid : Nat)
    (result ch rh : String) :
    (applyResume w caller pid result ch rh).contract = w.contract ∧
      ∀ out, coordinator_resume w.contract caller pid result ch rh = Except.ok out →
        out.1 = w.contract := by
  constructor
  · unfold applyResume
    cases hres : coordinator_resume w.contract caller pid result ch rh with
    | error e => rfl
    | ok res =>
      obtain ⟨c2, yid, payload⟩ := res
      obtain ⟨rfl, _⟩ := coordinator_resume_ok hres
      rfl
  · intro out hout
    obtain ⟨c2, yid, payload⟩ := out
    obtain ⟨rfl, _⟩ := coordinator_resume_ok hout
    rfl

theorem C8_witness :
    (applyResume exW6 "owner" 1 "final" (hash "cfg-A") (hash "final")).contract =
      exW6.contract :=
  (C8_resume_no_mutation exW6 "owner" 1 "final" (hash "cfg-A") (hash "final")).1

def exC9 : CoordinatorContract :=
  { owner := "owner"
    approved_codehashes := []
    coordinator_by_account_id := [("alice", ⟨"cs", "ch-1"⟩)]
    current_proposal_id := 0
    proposals := []
    manifesto := none
    registered_workers := [] }

/-- C9 fails as stated: `register_worker` checks only `contains_key` on the
caller-binding map (lib.rs:547) and never re-checks the bound codehash
against the approved set, so a caller whose codehash has been revoked (and
who therefore fails the approved-codehash gate) can still register
workers. -/
theorem C9_counterexample :
    "alice" ≠ exC9.owner ∧
      (∃ e, require_approved_codehash exC9 "alice" = Except.error e) ∧
      (∃ c', register_worker exC9 "alice" "w9" none 3 = Except.ok c') :=
  ⟨by decide, ⟨_, rfl⟩, ⟨_, rfl⟩⟩

/-- C9 amended: `register_worker` succeeds exactly when the caller is the
owner or has any binding in `coordinator_by_account_id`, regardless of
whether the bound codehash is still approved. -/
theorem C9_amended (c : CoordinatorContract) (caller wid : String)
    (acct : Option String) (now : Nat) :
    (∃ c', register_worker c caller wid acct now = Except.ok c') ↔
      (caller = c.owner ∨
        (mapLookup c.coordinator_by_account_id caller).isSome = true) := by
  unfold register_worker
  constructor
  · rintro ⟨c', hc'⟩
    by_cases h : caller = c.owner ∨
        (mapLookup c.coordinator_by_account_id caller).isSome = true
    · exact h
    · rw [if_neg h] at hc'
      cases hc'
  · intro h
    rw [if_pos h]
    exact ⟨_, rfl⟩

theorem C9_amended_witness :
    ∃ c', register_worker exC9 "alice" "w10" none 4 = Except.ok c' :=
  (C9_amended exC9 "alice" "w10" none 4).mpr (Or.inr rfl)

/-- C10: calling record_worker_submissions with an empty batch, by a caller
passing the access-control gate, on an existing proposal in `Created` with
no submissions, succeeds and flips the state to `WorkersCompleted` while
`worker_submissions` stays empty — the contract never requires the batch to
be non-empty. -/
theorem C10_empty_batch (c : CoordinatorContract) (caller : String) (now pid : Nat)
    (p : Proposal)
    (hgate : require_approved_codehash c caller = Except.ok ())
    (hp : mapLookup c.proposals pid = some p)
    (hstate : p.state = ProposalState.Created)
    (hempty : p.worker_submissions = []) :
    ∃ c', record_worker_submissions c caller now pid [] = Except.ok c' ∧
      mapLookup c'.proposals pid =
        some { p with state := ProposalState.WorkersCompleted } ∧
      ∀ q, mapLookup c'.proposals pid = some q → q.worker_submissions = [] := by
  have hok : record_worker_submissions c caller now pid [] =
      Except.ok { c with proposals := mapInsert c.proposals pid { p with state := ProposalState.WorkersCompleted } } := by
    unfold record_worker_submissions
    rw [hgate]
    dsimp only
    rw [hp]
    dsimp only
    rw [if_pos hstate]
    rfl
  refine ⟨_, hok, ?_, ?_⟩
  · exact mapLookup_insert_self _ _ _
  · intro q hq
    have hqe := lookup_funct (mapLookup_insert_self c.proposals pid
      { p with state := ProposalState.WorkersCompleted }) hq
    rw [hqe]
    exact hempty

theorem C10_witness :
    ∃ c', record_worker_submissions exW5.contract "owner" 7 1 [] = Except.ok c' ∧
      mapLookup c'.proposals 1 =
        some { exP5 with state := ProposalState.WorkersCompleted } ∧
      ∀ q, mapLookup c'.proposals 1 = some q → q.worker_submissions = [] :=
  C10_empty_batch exW5.contract "owner" 7 1 exP5 rfl (by decide) rfl rfl

end Coord
